import Mathlib

/-!
Verification development for the OrangeScada OPC UA driver
(src/OpcUADriver.js and src/driver.js).

Shallow embedding conventions:
* JS numbers that hold integers are modelled as `Nat`/`Int`, with explicit
  wrap-around (`% 2^32`) exactly where the source relies on it (`>>> 0`);
* JS objects are association lists (`List (String × _)`) with in-place update
  on the first matching key and append on a missing key, matching JS object
  semantics for the string keys the driver uses;
* promise chains are explicit state-passing functions, with the outcome of an
  external asynchronous call passed in as a parameter where it matters.
-/

/- ### Decimal rendering (specification side)

`decRender` is the straightforward arbitrary-precision decimal rendering of a
natural number, written with explicit fuel so the kernel can evaluate it.
It agrees with `Nat.digits 10` (proved below), through which all reasoning
goes.  JS renders integral numbers in the safe range (all values handled by
the 64-bit conversion are below 2^53) exactly this way, so `decRender` also
models the implicit number-to-string conversions `"" + dlo` and `sign + dhi`
of the source. -/

def digitsLEAux : Nat → Nat → List Nat
  | _, 0 => []
  | 0, _ + 1 => []
  | fuel + 1, n + 1 => ((n + 1) % 10) :: digitsLEAux fuel ((n + 1) / 10)

/-- Little-endian decimal digits of `n`. -/
def digitsLE (n : Nat) : List Nat := digitsLEAux n n

theorem digitsLEAux_eq (fuel n : Nat) (h : n ≤ fuel) :
    digitsLEAux fuel n = Nat.digits 10 n := by
  induction fuel generalizing n with
  | zero =>
    have hn : n = 0 := Nat.le_zero.mp h
    subst hn
    rw [Nat.digits_zero]
    rw [digitsLEAux]
  | succ f ih =>
    cases n with
    | zero => rw [Nat.digits_zero]; rfl
    | succ m =>
      rw [digitsLEAux, Nat.digits_def' (by norm_num : (1:Nat) < 10) (Nat.succ_pos m)]
      congr 1
      refine ih _ ?_
      have hd : (m + 1) / 10 < m + 1 := Nat.div_lt_self (Nat.succ_pos m) (by norm_num)
      omega

theorem digitsLE_eq (n : Nat) : digitsLE n = Nat.digits 10 n :=
  digitsLEAux_eq n n le_rfl

/-- The exact arbitrary-precision decimal rendering of a natural number. -/
def decRender (n : Nat) : String :=
  if n = 0 then "0" else String.mk ((digitsLE n).reverse.map Nat.digitChar)

/-- The exact arbitrary-precision decimal rendering of an integer:
a sign for negative values, then the decimal magnitude. -/
def intDecRender (v : Int) : String :=
  if v < 0 then "-" ++ decRender v.natAbs else decRender v.toNat

theorem string_mk_append (l₁ l₂ : List Char) :
    String.mk (l₁ ++ l₂) = String.mk l₁ ++ String.mk l₂ := rfl

/-- Splitting the base-10 digit list of `b + a * 10 ^ k` for `b < 10 ^ k`:
the digits of `b` padded with zeros to width `k`, then the digits of `a`. -/
theorem digits10_add_mul_pow (k : Nat) : ∀ a b : Nat, 0 < a → b < 10 ^ k →
    Nat.digits 10 (b + a * 10 ^ k)
      = (Nat.digits 10 b ++ List.replicate (k - (Nat.digits 10 b).length) 0)
          ++ Nat.digits 10 a := by
  induction k with
  | zero =>
    intro a b _ hb
    have hb0 : b = 0 := by simpa using Nat.lt_one_iff.mp (by simpa using hb)
    subst hb0
    simp
  | succ k ih =>
    intro a b ha hb
    have hpos : 0 < b + a * 10 ^ (k + 1) :=
      Nat.lt_of_lt_of_le (Nat.mul_pos ha (Nat.pos_pow_of_pos _ (by norm_num)))
        (Nat.le_add_left _ _)
    rw [Nat.digits_def' (by norm_num : (1:Nat) < 10) hpos]
    have hsplit : a * 10 ^ (k + 1) = a * 10 ^ k * 10 := by ring
    have hmod : (b + a * 10 ^ (k + 1)) % 10 = b % 10 := by
      rw [hsplit, Nat.add_mul_mod_self_right]
    have hdiv : (b + a * 10 ^ (k + 1)) / 10 = b / 10 + a * 10 ^ k := by
      rw [hsplit, Nat.add_mul_div_right _ _ (by norm_num : (0:Nat) < 10)]
    rw [hmod, hdiv]
    have hb10 : b / 10 < 10 ^ k := by
      rw [Nat.div_lt_iff_lt_mul (by norm_num : (0:Nat) < 10)]
      calc b < 10 ^ (k + 1) := hb
        _ = 10 ^ k * 10 := by ring
    rw [ih a (b / 10) ha hb10]
    by_cases hb0 : b = 0
    · subst hb0
      simp [List.replicate_succ]
    · rw [Nat.digits_def' (by norm_num : (1:Nat) < 10) (Nat.pos_of_ne_zero hb0)]
      simp only [List.length_cons, List.cons_append]
      have hlen : k + 1 - ((Nat.digits 10 (b / 10)).length + 1)
          = k - (Nat.digits 10 (b / 10)).length := by omega
      rw [hlen]

/-- The 18-zero pad string used by the source. -/
def zeros18 : String := "000000000000000000"

theorem zeros18_data : zeros18.data = List.replicate 18 '0' := rfl

/-- Rendering `a * 10 ^ 14 + b` (for `a > 0`, `b < 10 ^ 14`) is the rendering
of `a` followed by the rendering of `b` left-padded with zeros to 14 digits,
where the pad is taken from the source's 18-zero literal. -/
theorem decRender_concat (a b : Nat) (ha : 0 < a) (hb : b < 10 ^ 14) :
    decRender (a * 10 ^ 14 + b)
      = decRender a
          ++ (String.mk (List.take (14 - (decRender b).length) zeros18.data)
                ++ decRender b) := by
  have ha0 : a ≠ 0 := Nat.pos_iff_ne_zero.mp ha
  have hpos : a * 10 ^ 14 + b ≠ 0 := by
    have := Nat.mul_pos ha (by norm_num : (0:Nat) < 10 ^ 14)
    omega
  have hda : decRender a
      = String.mk ((Nat.digits 10 a).reverse.map Nat.digitChar) := by
    rw [decRender, if_neg ha0, digitsLE_eq]
  have hdc : Nat.digitChar 0 = '0' := rfl
  have hL : decRender (a * 10 ^ 14 + b)
      = String.mk ((Nat.digits 10 a).reverse.map Nat.digitChar
          ++ (List.replicate (14 - (Nat.digits 10 b).length) '0'
              ++ (Nat.digits 10 b).reverse.map Nat.digitChar)) := by
    rw [decRender, if_neg hpos, digitsLE_eq]
    rw [show a * 10 ^ 14 + b = b + a * 10 ^ 14 from by ring]
    rw [digits10_add_mul_pow 14 a b ha hb]
    rw [List.reverse_append, List.reverse_append, List.reverse_replicate]
    rw [List.map_append, List.map_append, List.map_replicate, hdc]
  have hpadtake : ∀ m : Nat,
      List.take (14 - m) zeros18.data = List.replicate (14 - m) '0' := by
    intro m
    rw [zeros18_data, List.take_replicate]
    congr 1
    have : 14 - m ≤ 14 := Nat.sub_le _ _
    omega
  by_cases hb0 : b = 0
  · subst hb0
    have hd0 : decRender 0 = "0" := rfl
    have hd0len : (decRender 0).length = 1 := rfl
    rw [hL, hda, hd0len, hd0, hpadtake 1]
    have hz0 : ("0" : String) = String.mk ['0'] := rfl
    rw [hz0, ← string_mk_append, ← string_mk_append]
    have h14 : (List.replicate (14 - 1) '0' : List Char) ++ ['0']
        = List.replicate 14 '0' := by
      have h := (List.replicate_succ' (n := 13) (a := '0')).symm
      simp only [show (14:Nat) - 1 = 13 from rfl]
      exact h
    rw [h14]
    simp
  · have hdb : decRender b
        = String.mk ((Nat.digits 10 b).reverse.map Nat.digitChar) := by
      rw [decRender, if_neg hb0, digitsLE_eq]
    have hblen : (decRender b).length = (Nat.digits 10 b).length := by
      rw [hdb]
      show (((Nat.digits 10 b).reverse.map Nat.digitChar)).length = _
      rw [List.length_map, List.length_reverse]
    rw [hL, hda, hblen, hdb, hpadtake _, ← string_mk_append, ← string_mk_append]

/- ### 64-bit hi/lo word to decimal string (src/OpcUADriver.js 771-810)

The bodies of `int64HiLoToString` and `uint64HiLoToString` after the sign
handling are identical in the source; they are factored into
`hiLoDecimalCore` here.  All intermediate JS numbers stay below 2^53, so the
double arithmetic of the source is exact and `Nat` models it faithfully
(`~~x` on these non-negative in-range values is floor, i.e. `Nat` division).
-/

def hiLoDecimalCore (hi lo : Nat) : String :=
  let dhi := hi / 0x5af4
  let dhirem := hi % 0x5af4
  let dlo := dhirem * 0x100000000 + dhi * 0xef85c000 + lo
  let dhi2 := dhi + dlo / 0x5af3107a4000
  let dlo2 := dlo % 0x5af3107a4000
  let slo := decRender dlo2
  if dhi2 ≠ 0 then
    decRender dhi2
      ++ (String.mk (List.take (14 - slo.length) zeros18.data) ++ decRender dlo2)
  else slo

/-- JS `x >>> 0`: conversion to an unsigned 32-bit integer. -/
def toUint32 (x : Int) : Nat := (x % 4294967296).toNat

/-- src/OpcUADriver.js 795-810: `uint64HiLoToString(hi, lo)`. -/
def uint64HiLoToString (hi lo : Int) : String :=
  hiLoDecimalCore (toUint32 hi) (toUint32 lo)

/-- src/OpcUADriver.js 771-792: `int64HiLoToString(hi, lo)`.
`hi & 0x80000000` is truthy iff bit 31 is set; on the negative branch the
source produces `sign + dhi + slo`, i.e. the sign followed by the shared
body's output. -/
def int64HiLoToString (hi lo : Int) : String :=
  let h := toUint32 hi
  let l := toUint32 lo
  if h &&& 0x80000000 ≠ 0 then
    let l2 := (0x100000000 - l) % 0x100000000
    let h2 := 0xffffffff - h + (if l2 = 0 then 1 else 0)
    "-" ++ hiLoDecimalCore h2 l2
  else hiLoDecimalCore h l

theorem hiLoDecimalCore_eq (hi lo : Nat) :
    hiLoDecimalCore hi lo = decRender (hi * 2 ^ 32 + lo) := by
  rw [show (2:Nat) ^ 32 = 4294967296 from by norm_num]
  unfold hiLoDecimalCore
  dsimp only
  generalize hgdlo : hi % 23284 * 4294967296 + hi / 23284 * 4018520064 + lo = dlo
  generalize hgdhi2 : hi / 23284 + dlo / 100000000000000 = dhi2
  generalize hgdlo2 : dlo % 100000000000000 = dlo2
  have key : dhi2 * 100000000000000 + dlo2 = hi * 4294967296 + lo := by omega
  have hdlo2lt : dlo2 < 10 ^ 14 := by
    rw [show (10:Nat) ^ 14 = 100000000000000 from by norm_num]
    omega
  by_cases h : dhi2 = 0
  · simp only [h, ne_eq, not_true_eq_false, if_false]
    have he : dlo2 = hi * 4294967296 + lo := by omega
    rw [he]
  · simp only [ne_eq, h, not_false_eq_true, if_true]
    have he : hi * 4294967296 + lo = dhi2 * 10 ^ 14 + dlo2 := by
      rw [show (10:Nat) ^ 14 = 100000000000000 from by norm_num]
      omega
    rw [he]
    exact (decRender_concat dhi2 dlo2 (Nat.pos_of_ne_zero h) hdlo2lt).symm

theorem toUint32_coe (n : Nat) (h : n < 4294967296) : toUint32 (n : Int) = n := by
  unfold toUint32
  omega

/-- C1: for every signed 64-bit value `v` presented as the two 32-bit words of
its two's-complement encoding, `int64HiLoToString` returns the exact
arbitrary-precision decimal rendering of `v`; for every unsigned `w < 2^64`,
`uint64HiLoToString` on its two 32-bit words returns the exact decimal
rendering of `w`. -/
theorem int64_uint64_hilo_decimal_correct (v : Int) (w : Nat)
    (hv1 : -(2 ^ 63) ≤ v) (hv2 : v < 2 ^ 63) (hw : w < 2 ^ 64) :
    int64HiLoToString (((v % (2 ^ 64 : Int)).toNat / 2 ^ 32 : Nat))
        (((v % (2 ^ 64 : Int)).toNat % 2 ^ 32 : Nat))
      = intDecRender v
    ∧ uint64HiLoToString ((w / 2 ^ 32 : Nat)) ((w % 2 ^ 32 : Nat))
      = decRender w := by
  constructor
  · by_cases hneg : v < 0
    · have hmod : v % (2 ^ 64 : Int) = v + 2 ^ 64 := by omega
      rw [hmod]
      have hub : 2 ^ 63 ≤ (v + 2 ^ 64).toNat ∧ (v + 2 ^ 64).toNat < 2 ^ 64 := by
        omega
      generalize hgu : (v + (2:Int) ^ 64).toNat = u at hub
      obtain ⟨hu1, hu2⟩ := hub
      have hvAbs : v.natAbs = 2 ^ 64 - u := by omega
      have hhib : 2 ^ 31 ≤ u / 2 ^ 32 ∧ u / 2 ^ 32 < 2 ^ 32 := by omega
      unfold int64HiLoToString
      dsimp only
      rw [toUint32_coe _ (by omega), toUint32_coe _ (by omega)]
      have hbit : u / 2 ^ 32 &&& 2147483648 ≠ 0 := by
        rw [show (2147483648 : Nat) = 2 ^ 31 from by norm_num, Nat.and_two_pow]
        have ht : (u / 2 ^ 32).testBit 31 = true := by
          rw [Nat.testBit_to_div_mod]
          simp only [decide_eq_true_eq]
          omega
        rw [ht]
        norm_num
      rw [if_pos hbit]
      rw [intDecRender, if_pos hneg]
      congr 1
      rw [hiLoDecimalCore_eq]
      congr 1
      have h32 : u % 2 ^ 32 < 4294967296 := by omega
      split
      · omega
      · omega
    · have h0 : (0:Int) ≤ v := le_of_not_lt hneg
      have hmod : v % (2 ^ 64 : Int) = v := by omega
      rw [hmod]
      have hub : v.toNat < 2 ^ 63 := by omega
      generalize hgu : v.toNat = u at hub
      have hvren : intDecRender v = decRender u := by
        rw [intDecRender, if_neg hneg, hgu]
      rw [hvren]
      unfold int64HiLoToString
      dsimp only
      rw [toUint32_coe _ (by omega), toUint32_coe _ (by omega)]
      have hbit : u / 2 ^ 32 &&& 2147483648 = 0 := by
        rw [show (2147483648 : Nat) = 2 ^ 31 from by norm_num, Nat.and_two_pow]
        have ht : (u / 2 ^ 32).testBit 31 = false :=
          Nat.testBit_lt_two_pow (by omega)
        rw [ht]
        norm_num
      rw [if_neg (by simpa using congrArg (· = 0) hbit ▸ (by simp [hbit]))]
      rw [hiLoDecimalCore_eq]
      congr 1
      omega
  · unfold uint64HiLoToString
    rw [toUint32_coe _ (by omega), toUint32_coe _ (by omega)]
    rw [hiLoDecimalCore_eq]
    congr 1
    omega

theorem int64_uint64_hilo_decimal_correct_witness :
    (-(2 ^ 63) ≤ (-123456789 : Int) ∧ (-123456789 : Int) < 2 ^ 63
      ∧ (12345678901234567890 : Nat) < 2 ^ 64)
    ∧ (int64HiLoToString
          ((((-123456789 : Int) % (2 ^ 64 : Int)).toNat / 2 ^ 32 : Nat))
          ((((-123456789 : Int) % (2 ^ 64 : Int)).toNat % 2 ^ 32 : Nat))
        = intDecRender (-123456789)
      ∧ uint64HiLoToString (((12345678901234567890:Nat) / 2 ^ 32 : Nat))
          (((12345678901234567890:Nat) % 2 ^ 32 : Nat))
        = decRender 12345678901234567890) :=
  ⟨⟨by norm_num, by norm_num, by norm_num⟩,
    int64_uint64_hilo_decimal_correct (-123456789) 12345678901234567890
      (by norm_num) (by norm_num) (by norm_num)⟩

/- ### JS value model

`Raw` models the JS values flowing through the driver: OPC UA variant
values, projected tag values, and the `{errorTxt: ...}` objects of the read
answer.  `Option Raw` models a possibly-`undefined` slot (`none` =
`undefined`); `Raw.null` is JS `null`.  `Raw.datev` carries the source text
of a `Date` produced by the `moment` parse in `getOneSetValue`. -/

inductive Raw where
  | null
  | boolv (b : Bool)
  | num (n : Int)
  | str (s : String)
  | arr (elems : List Raw)
  | errObj (errorTxt : String)
  | datev (s : String)

/-- JS truthiness (the model has no NaN; the driver's numeric raws are
integral). -/
def truthy : Raw → Bool
  | .null => false
  | .boolv b => b
  | .num n => decide (n ≠ 0)
  | .str s => !s.isEmpty
  | .arr _ => true
  | .errObj _ => true
  | .datev _ => true

mutual

/-- JS `String(v)` / `v.toString()`: exact for the integral numbers, strings,
booleans and (nested) arrays the driver handles. -/
def jsToString : Raw → String
  | .null => "null"
  | .boolv b => if b then "true" else "false"
  | .num n => intDecRender n
  | .str s => s
  | .arr xs => jsToStringList xs
  | .errObj _ => "[object Object]"
  | .datev s => s

def jsToStringList : List Raw → String
  | [] => ""
  | [x] => jsToString x
  | x :: xs => jsToString x ++ "," ++ jsToStringList xs

end

/-- src/OpcUADriver.js 827-832: arrays and strings are the iterable raws. -/
def isIterable : Raw → Bool
  | .str _ => true
  | .arr _ => true
  | _ => false

/-- JS spread `[...value]` for an iterable raw (strings spread to their
characters). -/
def spreadRaw : Raw → List Raw
  | .arr xs => xs
  | .str s => s.data.map (fun c => Raw.str (String.mk [c]))
  | v => [v]

/-- JS element access `xs[i]`; negative indices yield `undefined`. -/
def jsIndex (xs : List Raw) (i : Int) : Option Raw :=
  if 0 ≤ i then xs.get? i.toNat else none

/- ### Type coercion (src/OpcUADriver.js 758-840) -/

/-- node-opcua `DataType.Int64`. -/
def dtInt64 : Int := 8

/-- node-opcua `DataType.UInt64`. -/
def dtUInt64 : Int := 9

/-- src/OpcUADriver.js 38: `maxStringSize`. -/
def maxStringSize : Nat := 16

/-- Error text constants, src/OpcUADriver.js 22-31. -/
def errDeviceIdNotFoundTxt : String := "Device ID not found"

def errTagNotFoundTxt : String := "Tag not found"

def errTagNotWriteableTxt : String := "Tag not writeable"

def errConfigTxt : String := "Config error"

def errEmptySessionTxt : String := "Empty session"

def errWriteFailTxt : String := "Write fail"

/-- A runtime tag record (the `tagItem` objects built by `deviceTagsToArray`,
which are also the records stored in a connection's `tags` map and in the
`ns` fan-out lists).  `Option` fields model JS properties that are only
assigned on some paths (`none` = property absent / `undefined`). -/
structure TagItem where
  err : Option String := none
  name : Option String := none
  nodeId : String := ""
  nodeType : Int := 0
  arrayIndex : Int := -1
  endpointUrl : String := ""
  deviceUid : String := ""
  type : String := ""
  subscribed : Option Bool := none
  read : Option Bool := none
  setValue : Option Raw := none
  value : Option Raw := none

/-- Leading-character test backing the `parseFloat` model. -/
def leadsNumeric (s : String) : Bool :=
  match s.data with
  | [] => false
  | c :: _ => c.isDigit || c = '-' || c = '+' || c = '.'

/-- Models `isNaN(parseFloat(v))`: `parseFloat` reads the leading numeric prefix of
`String(v)`; for an array that prefix comes from the first element.  One
nesting level is modelled — the driver's numeric raws are numbers or arrays
of numbers. -/
def parseFloatNaN : Raw → Bool
  | .num _ => false
  | .str s => !leadsNumeric s
  | .arr [] => true
  | .arr (x :: _) =>
    match x with
    | .num _ => false
    | .str s => !leadsNumeric s
    | _ => true
  | _ => true

/-- Numeric value of `v[i]` as consumed by `>>> 0` in the 64-bit conversion
(the 64-bit raws arrive as two-element `[hi, lo]` arrays; non-numeric
elements coerce to 0). -/
def rawNum2 (v : Raw) (i : Nat) : Int :=
  match v with
  | .arr xs =>
    match xs.get? i with
    | some (.num n) => n
    | some (.boolv b) => if b then 1 else 0
    | _ => 0
  | _ => 0

/-- src/OpcUADriver.js 759-768: `correct64(tag, value)`. -/
def correct64 (tag : TagItem) (value : Raw) : Raw :=
  if tag.nodeType ≠ dtInt64 ∧ tag.nodeType ≠ dtUInt64 then
    if parseFloatNaN value then .str (jsToString value) else value
  else if tag.nodeType = dtInt64 then
    .str (int64HiLoToString (rawNum2 value 0) (rawNum2 value 1))
  else
    .str (uint64HiLoToString (rawNum2 value 0) (rawNum2 value 1))

/-- Models `moment(new Date(v)).unix() * 1000`: for a numeric timestamp, the floor
to whole seconds, in milliseconds.  Non-numeric raws (string dates) are
modelled as 0; no verified claim depends on them. -/
def momentUnixMs : Raw → Int
  | .num n => n.fdiv 1000 * 1000
  | _ => 0

/-- src/OpcUADriver.js 812-825: `getValueByType(tag, value)`.  The body is
guarded by `if (value !== null)` with no else branch, so a `null` input
yields JS `undefined` (`none`). -/
def getValueByType (tag : TagItem) (value : Raw) : Option Raw :=
  match value with
  | .null => none
  | v =>
    match tag.type with
    | "datetime" => some (.num (momentUnixMs v))
    | "bool" => some (.num (if truthy v then 1 else 0))
    | "string" => some (.str ((jsToString v).take maxStringSize))
    | _ => some (correct64 tag v)

/-- src/OpcUADriver.js 835-840: `getValueByIndex(tag, value)`.  `none` models
JS `undefined` as argument and result.  For `arrayIndex < -1` — outside the
driver's data model, where `arrayIndex` is `-1` or a valid index — JS would
project `undefined` and throw inside the projection; that unreachable corner
is modelled as `none`. -/
def getValueByIndex (tag : TagItem) (value : Option Raw) : Option Raw :=
  match value with
  | none => some .null
  | some v =>
    if tag.arrayIndex = -1 then getValueByType tag v
    else
      let values := if isIterable v then spreadRaw v else [v]
      if tag.arrayIndex < (values.length : Int) then
        match jsIndex values tag.arrayIndex with
        | some el => getValueByType tag el
        | none => none
      else some .null

/-- C9: for every tag and raw value, `getValueByIndex` returns null when the
raw is undefined; when `arrayIndex = -1` it returns the scalar projection of
the raw through the tag's type; otherwise (for the data model's indices
`arrayIndex ≥ 0`) it treats the raw as a sequence — the spread of an
iterable, the singleton of anything else — and returns the projection of the
element at `arrayIndex` when in range, and null when out of range. -/
theorem getValueByIndex_dispatch (tag : TagItem) (value : Option Raw) :
    (value = none → getValueByIndex tag value = some Raw.null)
    ∧ (∀ v, value = some v → tag.arrayIndex = -1 →
        getValueByIndex tag value = getValueByType tag v)
    ∧ (∀ v, value = some v → 0 ≤ tag.arrayIndex →
        (tag.arrayIndex < (((if isIterable v then spreadRaw v else [v]).length : Int)) →
          ∃ el, (if isIterable v then spreadRaw v else [v]).get? tag.arrayIndex.toNat
                  = some el
              ∧ getValueByIndex tag value = getValueByType tag el)
        ∧ ((((if isIterable v then spreadRaw v else [v]).length : Int)) ≤ tag.arrayIndex →
          getValueByIndex tag value = some Raw.null)) := by
  refine ⟨?_, ?_, ?_⟩
  · intro h
    subst h
    rfl
  · intro v hv hidx
    subst hv
    rw [getValueByIndex, if_pos hidx]
  · intro v hv hge
    subst hv
    have hne : tag.arrayIndex ≠ -1 := by omega
    constructor
    · intro hlt
      have hget : ∃ el,
          (if isIterable v then spreadRaw v else [v]).get? tag.arrayIndex.toNat
            = some el := by
        rcases h : (if isIterable v then spreadRaw v else [v]).get?
            tag.arrayIndex.toNat with _ | el
        · exfalso
          have hlen := List.get?_eq_none.mp h
          omega
        · exact ⟨el, rfl⟩
      obtain ⟨el, hel⟩ := hget
      refine ⟨el, hel, ?_⟩
      rw [getValueByIndex, if_neg hne, if_pos hlt]
      rw [jsIndex, if_pos hge, hel]
    · intro hle
      rw [getValueByIndex, if_neg hne, if_neg (by omega)]

theorem getValueByIndex_dispatch_witness :
    ∃ el, (if isIterable (Raw.arr [Raw.num 5, Raw.num 7])
            then spreadRaw (Raw.arr [Raw.num 5, Raw.num 7])
            else [Raw.arr [Raw.num 5, Raw.num 7]]).get? ((1 : Int)).toNat = some el
        ∧ getValueByIndex { arrayIndex := 1, type := "int" : TagItem }
            (some (Raw.arr [Raw.num 5, Raw.num 7]))
            = getValueByType { arrayIndex := 1, type := "int" : TagItem } el :=
  ((getValueByIndex_dispatch { arrayIndex := 1, type := "int" : TagItem }
      (some (Raw.arr [Raw.num 5, Raw.num 7]))).2.2
    (Raw.arr [Raw.num 5, Raw.num 7]) rfl (by norm_num)).1 (by
      show (1 : Int) < (([Raw.num 5, Raw.num 7] : List Raw).length : Int)
      norm_num)

/- ### Association-list model of JS objects -/

/-- Property read `obj[key]` (`none` = property absent). -/
def alookup {α : Type} : List (String × α) → String → Option α
  | [], _ => none
  | (k, v) :: t, key => if k = key then some v else alookup t key

/-- Property write `obj[key] = v`: update in place, append when absent. -/
def aset {α : Type} : List (String × α) → String → α → List (String × α)
  | [], key, v => [(key, v)]
  | (k, w) :: t, key, v => if k = key then (key, v) :: t else (k, w) :: aset t key v

/-- In-place modification of an existing property (no-op when absent). -/
def amod {α : Type} : List (String × α) → String → (α → α) → List (String × α)
  | [], _, _ => []
  | (k, w) :: t, key, f => if k = key then (k, f w) :: t else (k, w) :: amod t key f

/-- Property deletion `delete obj[key]`. -/
def aerase {α : Type} : List (String × α) → String → List (String × α)
  | [], _ => []
  | (k, w) :: t, key => if k = key then t else (k, w) :: aerase t key

theorem alookup_aset {α : Type} (l : List (String × α)) (k : String) (v : α) :
    alookup (aset l k v) k = some v := by
  induction l with
  | nil => simp [aset, alookup]
  | cons p t ih =>
    by_cases h : p.1 = k
    · simp [aset, alookup, h]
    · simp [aset, alookup, h, ih]

theorem alookup_aset_ne {α : Type} (l : List (String × α)) (k k' : String) (v : α)
    (h : k ≠ k') : alookup (aset l k v) k' = alookup l k' := by
  induction l with
  | nil => simp [aset, alookup, h]
  | cons p t ih =>
    by_cases hp : p.1 = k
    · simp [aset, alookup, hp, h]
    · simp only [aset, if_neg hp, alookup]
      by_cases hp' : p.1 = k'
      · simp [hp']
      · simp [hp', ih]

theorem alookup_amod {α : Type} (l : List (String × α)) (k : String) (f : α → α) :
    alookup (amod l k f) k = (alookup l k).map f := by
  induction l with
  | nil => simp [amod, alookup]
  | cons p t ih =>
    by_cases h : p.1 = k
    · simp [amod, alookup, h]
    · simp [amod, alookup, h, ih]

theorem alookup_amod_ne {α : Type} (l : List (String × α)) (k k' : String)
    (f : α → α) (h : k ≠ k') : alookup (amod l k f) k' = alookup l k' := by
  induction l with
  | nil => simp [amod]
  | cons p t ih =>
    by_cases hp : p.1 = k
    · simp only [amod, if_pos hp, alookup]
      rw [if_neg (by rw [hp]; exact h), if_neg (by rw [hp]; exact h)]
    · simp only [amod, if_neg hp, alookup]
      by_cases hp' : p.1 = k'
      · simp [hp']
      · simp [hp', ih]

/- ### Runtime connection state -/

/-- The per-node fan-out record stored in a connection's `ns` map:
`originalValue` is absent until the first data-change callback. -/
structure NodeRec where
  originalValue : Option Raw := none
  tags : List TagItem := []

/-- The OPC UA client handle (only its `connected` flag is observable to the
verified claims). -/
structure ClientRec where
  connected : Bool := false

/-- A Connection Record: `session`/`subscription` model the presence of the
respective handles. -/
structure Conn where
  client : ClientRec := {}
  session : Bool := false
  subscription : Bool := false
  tags : List (String × TagItem) := []
  ns : List (String × NodeRec) := []

/-- The `connections` map: endpoint url → deviceUid → record.  A `none`
value is the `null` left behind by `destroyConnect`. -/
abbrev DeviceConns := List (String × Option Conn)

abbrev Connections := List (String × DeviceConns)

/-- Read `connections[fda][uid]`, treating a `null` entry as absent (the
source always guards with truthiness). -/
def lookupConn (cs : Connections) (fda uid : String) : Option Conn :=
  match alookup cs fda with
  | none => none
  | some dc => (alookup dc uid).join

/-- Write `connections[fda][uid] = c` (used on paths where `connections[fda]`
exists). -/
def setConn (cs : Connections) (fda uid : String) (c : Conn) : Connections :=
  amod cs fda (fun dc => aset dc uid (some c))

/-- Modify the record at `connections[fda][uid]` in place. -/
def modConn (cs : Connections) (fda uid : String) (f : Conn → Conn) : Connections :=
  amod cs fda (fun dc => amod dc uid (fun c? => c?.map f))

/-- Truthiness of an `err` property (`undefined` and `""` are falsy). -/
def truthyErr : Option String → Bool
  | some s => !s.isEmpty
  | none => false

/-- JS property access with the tag's possibly-undefined `name` stringifies
`undefined` to the literal key `"undefined"`. -/
def tagKey (t : TagItem) : String := t.name.getD ("undefined")

def isNullRaw : Raw → Bool
  | .null => true
  | _ => false

def isErrObjRaw : Raw → Bool
  | .errObj _ => true
  | _ => false

/- ### Monitor registration (src/OpcUADriver.js 699-731, 527-535) -/

/-- One iteration of the `tags.forEach` body of `addMonitoredTags`: error
tags are skipped; a tag whose node-id already has a NodeRecord is put in the
tag map with its value seeded from `originalValue` and appended to the
fan-out list (no monitor call); otherwise a fresh NodeRecord is created and
a `subscription.monitor` call is issued (logged as the node-id). -/
def addTagStep (st : Conn × List String) (tag : TagItem) : Conn × List String :=
  let (conn, log) := st
  if truthyErr tag.err then st
  else
    match alookup conn.ns tag.nodeId with
    | some nrec =>
      let tag2 := { tag with value := getValueByIndex tag nrec.originalValue }
      ({ conn with
          tags := aset conn.tags (tagKey tag) tag2,
          ns := amod conn.ns tag.nodeId
            (fun nr => { nr with tags := nr.tags ++ [tag2] }) }, log)
    | none =>
      ({ conn with
          tags := aset conn.tags (tagKey tag) tag,
          ns := aset conn.ns tag.nodeId { originalValue := none, tags := [tag] } },
        log ++ [tag.nodeId])

/-- src/OpcUADriver.js 699-731: `addMonitoredTags(subscription, tags,
fullDeviceName, deviceUid)`.  Returns the updated map and the list of
`subscription.monitor` calls issued (by node-id).  When the `deviceUid`
argument is omitted at a call site, the lookup key is the string
`"undefined"`. -/
def addMonitoredTags (cs : Connections) (subscription : Bool)
    (tags : List TagItem) (fullDeviceName : String) (deviceUid : Option String) :
    Connections × List String :=
  if !subscription then (cs, [])
  else
    let key := deviceUid.getD ("undefined")
    match lookupConn cs fullDeviceName key with
    | none => (cs, [])
    | some conn =>
      let r := tags.foldl addTagStep (conn, [])
      (setConn cs fullDeviceName key r.1, r.2)

/-- src/OpcUADriver.js 527-535: `checkIfTagsInMonitor` — filter out tags whose
name is already registered, then register the rest. -/
def checkIfTagsInMonitor (cs : Connections) (tags : List TagItem)
    (fullDeviceName deviceUid : String) : Connections × List String :=
  let noMonitoredTags := tags.filter (fun tag =>
    match alookup cs fullDeviceName with
    | none => true
    | some dc =>
      match (alookup dc deviceUid).join with
      | none => true
      | some conn => !(alookup conn.tags (tagKey tag)).isSome)
  if noMonitoredTags.length > 0 then
    let subscription :=
      match lookupConn cs fullDeviceName deviceUid with
      | some c => c.subscription
      | none => false
    addMonitoredTags cs subscription noMonitoredTags fullDeviceName (some deviceUid)
  else (cs, [])

/- ### Config model -/

/-- Tag option holders (`currentValue`s).  `nodeType`/`arrayIndex` are read
with `?.` and `?? 0` / `?? -1`, so an absent holder behaves as the default
and is modelled by it. -/
structure TagOpts where
  nodeId : String := ""
  nodeType : Int := 0
  arrayIndex : Int := -1
deriving DecidableEq, Repr

/-- A configured tag of a device.  `options = none` models an absent options
object (reading it throws, i.e. config error). -/
structure TagCfg where
  name : String := ""
  type : String := ""
  read : Bool := true
  write : Bool := true
  address : Nat := 0
  options : Option TagOpts := none
  subscribed : Option Bool := none
deriving DecidableEq, Repr

/-- A configured device: only the fields the verified operations read are
modelled (the security/credential/timeout options feed the connection setup,
which the claims treat abstractly). -/
structure DeviceCfg where
  tags : List (String × TagCfg) := []
  endpointUrl : String := ""
  browseTrigger : String := ""
deriving DecidableEq, Repr

/- ### deviceTagsToArray (src/OpcUADriver.js 395-439) -/

inductive Cmd where
  | read
  | write
deriving DecidableEq

/-- A request item: a tag uid for reads, a single-key `{name: value}` object
for writes. -/
inductive ReqItem where
  | rname (s : String)
  | rset (pair : String × Raw)

/-- The body of the `deviceTagsToArray` loop for one item.  The try block's
first line `tag.options.nodeId.currentValue` throws when the tag is missing
or its options are absent, leaving only `err` assigned; on success every
field is assigned (for a non-writeable tag the earlier error is kept). -/
def tagItemOf (cmd : Cmd) (device : DeviceCfg) (deviceUid : String)
    (item : ReqItem) : TagItem :=
  let reqName : String :=
    match item with
    | .rname s => s
    | .rset p => p.1
  let tag? : Option TagCfg := alookup device.tags reqName
  let err0 : Option String :=
    match tag? with
    | none => some errTagNotFoundTxt
    | some t =>
      if cmd = Cmd.write && !t.write then some errTagNotWriteableTxt else none
  match tag? with
  | none => { err := err0 }
  | some t =>
    match t.options with
    | none => { err := if truthyErr err0 then err0 else some errConfigTxt }
    | some opts =>
      { err := err0
        name := some reqName
        nodeId := opts.nodeId
        nodeType := opts.nodeType
        arrayIndex := opts.arrayIndex
        endpointUrl := device.endpointUrl
        deviceUid := deviceUid
        type := t.type
        subscribed := t.subscribed
        read := if cmd = Cmd.read then some t.read else none
        setValue :=
          match cmd, item with
          | Cmd.write, .rset p => some p.2
          | _, _ => none }

/-- src/OpcUADriver.js 395-439: `deviceTagsToArray` (with `subscribeOnly`
false, as in every verified claim; the `subscribeOnly` early-continue is only
exercised by `updateSubscribe`). -/
def deviceTagsToArray (cmd : Cmd) (device : DeviceCfg) (items : List ReqItem)
    (deviceUid : String) : List TagItem :=
  items.map (tagItemOf cmd device deviceUid)

/- ### Read answer assembly (src/OpcUADriver.js 442-450) -/

/-- The `getValue` helper of `opcuaGetValues`: a missing record yields null;
otherwise `tag.value ?? (tag.err ? {errorTxt: tag.err} : null)` — both
`undefined` and `null` values fall through to the error check. -/
def getValue (r? : Option TagItem) : Raw :=
  match r? with
  | none => Raw.null
  | some t =>
    match t.value with
    | some Raw.null | none =>
      match t.err with
      | some e => if e.isEmpty then Raw.null else Raw.errObj e
      | none => Raw.null
    | some v => v

/-- src/OpcUADriver.js 442-450: `opcuaGetValues` — answers in request order
from the connection's tag map. -/
def opcuaGetValues (cs : Connections) (tags : List TagItem)
    (fullDeviceName deviceUid : String) : List Raw :=
  tags.map (fun tag =>
    getValue (
      match alookup cs fullDeviceName with
      | none => none
      | some dc => ((alookup dc deviceUid).join).bind
          (fun conn => alookup conn.tags (tagKey tag))))

/- ### Connection lifecycle -/

def errOpcRejectTxt : String := "Opcua server reject connection"

/-- Success path of `createConnect` (src/OpcUADriver.js 632-696): the record
is inserted with `connected = false` and empty `tags`/`ns` maps; after
connect, session and subscription succeed, `connected` is set and
`addMonitoredTags(subscription, tags, fullDeviceName)` is called — without
the `deviceUid` argument (line 687), so its device lookup key is
`"undefined"`.  Returns the updated map and the monitor-call log. -/
def createConnectSuccess (cs : Connections) (fda deviceUid : String)
    (tags : List TagItem) : Connections × List String :=
  let conn0 : Conn :=
    { client := { connected := false }, session := false, subscription := false,
      tags := [], ns := [] }
  let cs1 :=
    match alookup cs fda with
    | none => aset cs fda [(deviceUid, some conn0)]
    | some dc => aset cs fda (aset dc deviceUid (some conn0))
  let cs2 := modConn cs1 fda deviceUid (fun c =>
    { c with session := true, subscription := true,
             client := { connected := true } })
  addMonitoredTags cs2 true tags fda none

/-- Promise outcome of an external call. -/
inductive POut where
  | ok
  | fail
deriving DecidableEq

/-- src/OpcUADriver.js 575-584: `closeSession` resolves (`some ()`) when the
record or its session is absent, or when `session.close()` resolves; a
rejected `session.close()` is not caught, so the returned promise never
settles (`none`). -/
def closeSession (cs : Connections) (fda uid : String) (closeRes : POut) :
    Option Unit :=
  match lookupConn cs fda uid with
  | none => some ()
  | some conn =>
    if !conn.session then some ()
    else
      match closeRes with
      | .ok => some ()
      | .fail => none

/-- src/OpcUADriver.js 587-597: `destroyConnect`.  The `.finally` block —
`delete connections[fda][uid]; connections[fda][uid] = null;
client.connected = false; reject(...)` — runs whenever the
`closeSession → client.disconnect` chain settles, even if `disconnect`
rejects; but when `session.close` rejects the chain never settles and
nothing below runs.  Returns the new map and whether the finalizer ran. -/
def destroyConnect (cs : Connections) (fda uid : String)
    (closeRes discRes : POut) : Connections × Bool :=
  match closeSession cs fda uid closeRes with
  | none => (cs, false)
  | some _ =>
    let _ := discRes
    (amod cs fda (fun dc => aset (aerase dc uid) uid none), true)

/- ### Read and status pipelines -/

/-- src/OpcUADriver.js 929-940: `getFullDeviceAddress` for a device uid
(`none` models the `null` of the catch). -/
def getFullDeviceAddress (dl : List (String × DeviceCfg)) (uid : String) :
    Option String :=
  (alookup dl uid).map DeviceCfg.endpointUrl

/-- The read pipeline `getTagsValues` → `getTagsList` → `opcuaRequest` with
`opcuaGetValues` (src/OpcUADriver.js 92-108, 382-392, 547-572).  `connectOk`
is the outcome of `createConnect` when no record exists yet; on failure the
request rejects with the connect error. -/
def getTagsValuesModel (dl : List (String × DeviceCfg)) (cs : Connections)
    (deviceUid : String) (names : List String) (connectOk : Bool) :
    Except String (List Raw) × Connections :=
  match alookup dl deviceUid with
  | none => (.error errDeviceIdNotFoundTxt, cs)
  | some device =>
    let tags := deviceTagsToArray Cmd.read device (names.map ReqItem.rname) deviceUid
    if tags.length = 0 then (.ok [], cs)
    else
      let fda := (getFullDeviceAddress dl deviceUid).getD ("null")
      match lookupConn cs fda deviceUid with
      | none =>
        if connectOk then
          let cs2 := (createConnectSuccess cs fda deviceUid tags).1
          (.ok (opcuaGetValues cs2 tags fda deviceUid), cs2)
        else (.error errOpcRejectTxt, cs)
      | some _ =>
        let r := checkIfTagsInMonitor cs tags fda deviceUid
        (.ok (opcuaGetValues r.1 tags fda deviceUid), r.1)

/-- The `{active: ...}` status answer. -/
structure StatusAnswer where
  active : Bool
deriving DecidableEq, Repr

/-- src/OpcUADriver.js 60-75: `getDeviceStatus`.  The second component
records whether a background `createConnect` was initiated. -/
def getDeviceStatus (dl : List (String × DeviceCfg)) (cs : Connections)
    (uid : String) : StatusAnswer × Bool :=
  match alookup dl uid with
  | none => ({ active := false }, false)
  | some device =>
    let fda := device.endpointUrl
    match lookupConn cs fda uid with
    | none => ({ active := false }, true)
    | some conn => ({ active := conn.client.connected }, false)

/- ### Change pump (src/OpcUADriver.js 739-756) and batcher (src/driver.js
1044-1068) -/

/-- The object handed to `subscribeHandler`: `values` keeps insertion order;
a value may be `undefined` (`none`). -/
structure SendObj where
  deviceUid : String
  values : List (String × Option Raw)

/-- One iteration of the fan-out `forEach` in `response`: set the node's
`originalValue`, project the raw into the tag map through the fan-out tag's
`arrayIndex`/type, and collect the projection when the tag is subscribed.
The source addresses the maps through the fan-out tag's own
endpoint/device/node fields. -/
def responseStep (value : Raw) (st : Connections × List (String × Option Raw))
    (ft : TagItem) : Connections × List (String × Option Raw) :=
  let (cs, vals) := st
  let cs2 := modConn cs ft.endpointUrl ft.deviceUid (fun c =>
    { c with
        ns := amod c.ns ft.nodeId (fun nr => { nr with originalValue := some value }),
        tags := amod c.tags (tagKey ft)
          (fun r => { r with value := getValueByIndex ft value }) })
  if ft.subscribed.getD false then
    (cs2, vals ++ [(tagKey ft, getValueByIndex ft value)])
  else (cs2, vals)

/-- src/OpcUADriver.js 739-756: `response(data, tag)` — the data-change
callback.  `dataValue` is `data?.value?.value` (`none` = undefined).  Returns
the updated map and the `subscribeHandler` invocations (at most one). -/
def response (cs : Connections) (tag : TagItem) (dataValue : Option Raw) :
    Connections × List SendObj :=
  let value := dataValue.getD Raw.null
  let nrec? :=
    match lookupConn cs tag.endpointUrl tag.deviceUid with
    | some conn => alookup conn.ns tag.nodeId
    | none => none
  match nrec? with
  | none => (cs, [])
  | some nrec =>
    let r := nrec.tags.foldl (responseStep value) (cs, [])
    if r.2.length > 0 then
      (r.1, [{ deviceUid := tag.deviceUid, values := r.2 }])
    else (r.1, [])

/-- The accumulation state of the batcher (src/driver.js 110-114):
`accumBuffer` keyed by deviceUid, and the pending-timer flag. -/
structure AccumState where
  buffer : List (String × List (String × Option Raw)) := []
  timerSet : Bool := false

/-- src/driver.js 1044-1068: `subscribeHandler` — a value object is
accumulated into the buffer (and the 100 ms flush timer armed) only when it
has exactly one entry; anything else is ignored. -/
def subscribeHandler (st : AccumState) (obj : SendObj) : AccumState :=
  if obj.values.length = 1 then
    match obj.values with
    | (tagname, v) :: _ =>
      { buffer :=
          aset st.buffer obj.deviceUid
            (aset ((alookup st.buffer obj.deviceUid).getD []) tagname v),
        timerSet := true }
    | [] => st
  else st

/-- An `asyncTagsValues` frame sent to the supervisor. -/
structure Frame where
  deviceUid : String
  values : List (String × Option Raw)

/-- The timer callback body of `subscribeHandler`: one `asyncTagsValues`
frame per buffered deviceUid. -/
def flushFrames (st : AccumState) : List Frame :=
  st.buffer.map (fun p => { deviceUid := p.1, values := p.2 })

/- ### Write path (src/OpcUADriver.js 453-515) -/

/-- src/OpcUADriver.js 462-468: `getOneSetValue` — coerce the set value to
the tag type (`datev` carries the parsed date abstractly as its source
text; write items always carry a present `setValue`). -/
def getOneSetValue (tag : TagItem) : Option Raw :=
  match tag.type with
  | "datetime" => some (Raw.datev (jsToString (tag.setValue.getD Raw.null)))
  | "bool" =>
    some (Raw.boolv (match tag.setValue with | some v => truthy v | none => false))
  | _ => tag.setValue

/-- JS in-range element assignment `xs[i] = v` (the driver writes within the
length of the observed array; out-of-range assignment is modelled as a
no-op). -/
def listSetAt (xs : List Raw) (i : Int) (v : Raw) : List Raw :=
  if 0 ≤ i then xs.set i.toNat v else xs

/-- src/OpcUADriver.js 453-459: `getSetValue(tag, deviceId)`.  For an indexed
tag the source reads `originalValue` through the connection and spreads it;
a missing record/node, an absent `originalValue` or a non-iterable one makes
the JS throw (modelled as `none`: the enclosing promise rejects). -/
def getSetValue (cs : Connections) (tag : TagItem) (deviceId : String) :
    Option (Option Raw) :=
  if tag.arrayIndex < 0 then some (getOneSetValue tag)
  else
    match lookupConn cs tag.endpointUrl deviceId with
    | none => none
    | some conn =>
      match alookup conn.ns tag.nodeId with
      | none => none
      | some nrec =>
        match nrec.originalValue with
        | none => none
        | some ov =>
          if isIterable ov then
            some (some (Raw.arr
              (listSetAt (spreadRaw ov) tag.arrayIndex
                ((getOneSetValue tag).getD Raw.null))))
          else none

/-- An OPC UA write issued by `opcuaSetValues` (the parts of the payload the
claims observe). -/
structure WriteCall where
  nodeId : String
  nodeType : Int
  value : Option Raw

def errTypeErrorTxt : String := "TypeError"

/-- First truthy per-tag error, in list order. -/
def firstTagErr (tags : List TagItem) : Option String :=
  tags.findSome? (fun t => if truthyErr t.err then t.err else none)

/-- src/OpcUADriver.js 471-515: `opcuaSetValues`.  Per tag, in order: an
error tag rejects synchronously with its error and issues no write;
otherwise `getSetValue` runs (a throw rejects synchronously) and a
`session.write` is issued, whose Good/other status is supplied by the
`writeOk` oracle.  `Promise.all` fails with the earliest rejection: all
synchronous rejections (in index order) precede the asynchronous write
failures.  Returns the per-index write calls (`none` = no write issued for
that tag) and the overall outcome. -/
def opcuaSetValues (cs : Connections) (tags : List TagItem)
    (fullDeviceName deviceId : String) (writeOk : WriteCall → Bool) :
    List (Option WriteCall) × Except String Unit :=
  match lookupConn cs fullDeviceName deviceId with
  | none => ([], .error errEmptySessionTxt)
  | some conn =>
    if !conn.session then ([], .error errEmptySessionTxt)
    else
      let calls := tags.map (fun tag =>
        if truthyErr tag.err then none
        else (getSetValue cs tag deviceId).map (fun nv =>
          { nodeId := tag.nodeId, nodeType := tag.nodeType, value := nv }))
      let syncRej := tags.findSome? (fun tag =>
        if truthyErr tag.err then tag.err
        else if (getSetValue cs tag deviceId).isNone then some errTypeErrorTxt
        else none)
      let result : Except String Unit :=
        match syncRej with
        | some e => .error e
        | none =>
          if calls.all (fun c? =>
              match c? with
              | some c => writeOk c
              | none => true) then .ok ()
          else .error errWriteFailTxt
      (calls, result)

/-- The write pipeline `setTagsValues` → `getTagsList` → `opcuaRequest` with
`opcuaSetValues` (src/OpcUADriver.js 124-139, 542-572). -/
def setTagsValuesModel (dl : List (String × DeviceCfg)) (cs : Connections)
    (deviceUid : String) (items : List (String × Raw))
    (writeOk : WriteCall → Bool) (connectOk : Bool) :
    List (Option WriteCall) × Except String Unit :=
  match alookup dl deviceUid with
  | none => ([], .error errDeviceIdNotFoundTxt)
  | some device =>
    let tags := deviceTagsToArray Cmd.write device (items.map ReqItem.rset) deviceUid
    if tags.length = 0 then ([], .ok ())
    else
      let fda := (getFullDeviceAddress dl deviceUid).getD ("null")
      match lookupConn cs fda deviceUid with
      | none =>
        if connectOk then
          let cs2 := (createConnectSuccess cs fda deviceUid tags).1
          opcuaSetValues cs2 tags fda deviceUid writeOk
        else ([], .error errOpcRejectTxt)
      | some _ =>
        let r := checkIfTagsInMonitor cs tags fda deviceUid
        opcuaSetValues r.1 tags fda deviceUid writeOk

/- ### Browse population (src/OpcUADriver.js 219-289) -/

/-- node-opcua `DataType` codes mapped by `getTagType`
(src/OpcUADriver.js 219-244). -/
def getTagType (nodeType : Int) : String :=
  if nodeType = 0 ∨ nodeType = 12 then "string"
  else if nodeType = 1 then "bool"
  else if 2 ≤ nodeType ∧ nodeType ≤ 9 then "int"
  else if nodeType = 10 ∨ nodeType = 11 then "float"
  else if nodeType = 13 then "datetime"
  else "string"

/-- A discovered tag emitted by the browser. -/
structure BrowseTag where
  name : String
  nodeId : String
  type : Int
  arrayIndex : Int
deriving DecidableEq, Repr

/-- Models JS `parseInt` for the driver's nonnegative integer tag uids:
the leading digit prefix, `none` (NaN) when there is none. -/
def parseIntLeading (s : String) : Option Nat :=
  let ds := s.data.takeWhile Char.isDigit
  if ds.isEmpty then none
  else some (ds.foldl (fun acc c => acc * 10 + (c.toNat - 48)) 0)

/-- Find the first tagmap entry whose name matches, return its uid and mark
the entry consumed (uid set to `""`), as `findIndex` plus
`tagmap[idx][0] = ''` do in the source. -/
def consumeFirst : List (String × String) → String → Option String × List (String × String)
  | [], _ => (none, [])
  | (k, n) :: t, name =>
    if n = name then (some k, ("", n) :: t)
    else
      let r := consumeFirst t name
      (r.1, (k, n) :: r.2)

/-- The fold state of the `browseTags.forEach` loop: the tag map, the
consumable `(uid, name)` tagmap, and `maxTagId`. -/
structure PopState where
  tags : List (String × TagCfg)
  tagmap : List (String × String)
  maxTagId : Nat

/-- The tag written by the creation branch of the browse merge
(src/OpcUADriver.js 266-275, with the common overwrite lines 277-280 folded
in: the fresh options object is created two lines earlier, so the writes
cannot throw there). -/
def browseCfgNew (bt : BrowseTag) (newId : Nat) : TagCfg :=
  { name := bt.name,
    options := some { nodeId := bt.nodeId, nodeType := bt.type,
                      arrayIndex := bt.arrayIndex },
    address := newId, read := true, write := true,
    type := getTagType bt.type }

/-- The common overwrite lines (src/OpcUADriver.js 277-280) applied to an
existing tag whose options object is present. -/
def browseCfgUpdate (bt : BrowseTag) (c : TagCfg) : TagCfg :=
  { c with
      options := some { nodeId := bt.nodeId, nodeType := bt.type,
                        arrayIndex := bt.arrayIndex },
      type := getTagType bt.type }

/-- One `browseTags.forEach` iteration (src/OpcUADriver.js 261-282): look up
the browse name in the tagmap; with no usable uid, allocate `++maxTagId` and
create a fresh tag (key `String(uid)`); otherwise overwrite the matched tag's
node-id/node-type/array-index options and its type with the discovered
values.  The source then marks a found tagmap entry consumed.  Writing
`options.nodeId.currentValue` (line 277) throws a TypeError when the matched
tag record or its options object is absent, aborting the whole merge:
modelled as `none`. -/
def populateStep (st : PopState) (bt : BrowseTag) : Option PopState :=
  let r := consumeFirst st.tagmap bt.name
  let tagUid : String := r.1.getD ""
  if tagUid = "" then
    let newId := st.maxTagId + 1
    some { tags := aset st.tags (decRender newId) (browseCfgNew bt newId),
           tagmap := r.2, maxTagId := newId }
  else
    match alookup st.tags tagUid with
    | some c =>
      if c.options.isSome then
        some { tags := amod st.tags tagUid (browseCfgUpdate bt),
               tagmap := r.2, maxTagId := st.maxTagId }
      else none
    | none => none

/-- src/OpcUADriver.js 247-289: `populateDevice`.  Build the `(uid, name)`
tagmap and `maxTagId` from the existing tags, merge each discovered tag,
reset the browse trigger to `"Stop"`, and delete every tag whose tagmap
entry was not consumed.  With no browse list (a failed browse) only the
trigger is reset.  A TypeError thrown by an iteration (a matched tag without
an options object) propagates: the merge aborts before the trigger reset and
the deletion pass, modelled as `none`. -/
def populateDevice (device : DeviceCfg) (browseTags : Option (List BrowseTag)) :
    Option DeviceCfg :=
  match browseTags with
  | none => some { device with browseTrigger := "Stop" }
  | some bts =>
    let tagmap0 := device.tags.map (fun p => (p.1, p.2.name))
    let maxId0 := device.tags.foldl (fun m p =>
      match parseIntLeading p.1 with
      | some n => if n > m then n else m
      | none => m) 0
    match bts.foldl (fun acc bt => acc.bind (fun st => populateStep st bt))
        (some { tags := device.tags, tagmap := tagmap0, maxTagId := maxId0 }) with
    | none => none
    | some st =>
      let tags2 := st.tagmap.foldl (fun ts p =>
        if p.1 ≠ "" then aerase ts p.1 else ts) st.tags
      some { device with tags := tags2, browseTrigger := "Stop" }

/- ### C2: fan-out publish and the batcher -/

/-- Fan-out scenario tag `a0` (arrayIndex 0, subscribed). -/
def fanA0 : TagItem :=
  { name := some ("a0"), nodeId := "n", endpointUrl := "e", deviceUid := "D",
    type := "int", nodeType := 6, arrayIndex := 0, subscribed := some true }

/-- Fan-out scenario tag `a3` (arrayIndex 3, subscribed). -/
def fanA3 : TagItem :=
  { fanA0 with name := some ("a3"), arrayIndex := 3 }

/-- Fan-out scenario connection map: both tags registered on node `n` of one
connection. -/
def fanConnMap : Connections :=
  [("e", [("D", some
    { client := { connected := true }, session := true, subscription := true,
      tags := [("a0", fanA0), ("a3", fanA3)],
      ns := [("n", { originalValue := none, tags := [fanA0, fanA3] })] })])]

/-- C2 (code-bug evaluation): a single data-change callback carrying
`[1,2,3,4]` on a node fanned out to `a0` (index 0) and `a3` (index 3), both
subscribed, stores 1 and 4 in the order of the NodeRecord's tag list and
invokes `subscribeHandler` once with both projections — but the batcher in
src/driver.js only accumulates value objects with exactly one entry, so the
buffer stays empty and no `asyncTagsValues` frame is ever emitted for this
update, contrary to the claim. -/
theorem fanout_publish_updates_values_but_no_frame :
    (let r := response fanConnMap fanA0
        (some (Raw.arr [Raw.num 1, Raw.num 2, Raw.num 3, Raw.num 4]))
     ((lookupConn r.1 ("e") ("D")).map (fun c =>
        ((alookup c.tags ("a0")).map TagItem.value,
         (alookup c.tags ("a3")).map TagItem.value)))
        = some (some (some (Raw.num 1)), some (some (Raw.num 4)))
     ∧ r.2.map SendObj.values
        = [[(("a0" : String), some (Raw.num 1)), (("a3" : String), some (Raw.num 4))]]
     ∧ r.2.foldl subscribeHandler {} = ({} : AccumState)
     ∧ flushFrames (r.2.foldl subscribeHandler {}) = []) :=
  ⟨rfl, rfl, rfl, rfl⟩

/- ### C10: device status for an unknown uid -/

/-- C10: a status request whose uid names no configured device returns
`{active: false}`, raises no error and initiates no connection (so no record
is created); and the `active` field is always one of the two booleans the
code can produce (`false`, or the client's `connected` flag). -/
theorem device_status_unknown_uid (dl : List (String × DeviceCfg))
    (cs : Connections) (uid : String) :
    (alookup dl uid = none →
      getDeviceStatus dl cs uid = ({ active := false }, false))
    ∧ ((getDeviceStatus dl cs uid).1 = { active := true }
        ∨ (getDeviceStatus dl cs uid).1 = { active := false }) := by
  constructor
  · intro h
    unfold getDeviceStatus
    rw [h]
  · rcases hb : (getDeviceStatus dl cs uid).1 with ⟨b⟩
    cases b
    · exact Or.inr rfl
    · exact Or.inl rfl

theorem device_status_unknown_uid_witness :
    alookup ([] : List (String × DeviceCfg)) ("x") = none
    ∧ getDeviceStatus [] [] ("x") = ({ active := false }, false) :=
  ⟨rfl, (device_status_unknown_uid [] [] ("x")).1 rfl⟩

/- ### C4: destroyConnect teardown -/

/-- C4 counterexample: with a live session, a failing `session.close` leaves
the `destroyConnect` chain pending before the finalizer — the record is not
removed, refuting removal "regardless of whether either attempt succeeds or
fails". -/
theorem destroy_close_fail_record_retained :
    (destroyConnect [(("e"), [(("D"), some { session := true : Conn })])]
        ("e") ("D") POut.fail POut.ok).2 = false
    ∧ (lookupConn
        (destroyConnect [(("e"), [(("D"), some { session := true : Conn })])]
          ("e") ("D") POut.fail POut.ok).1 ("e") ("D")).isSome = true :=
  ⟨rfl, rfl⟩

/-- C4 amended: whenever the session-close attempt settles (no record, no
session, or `session.close` resolves), the finalizer runs after the close
and disconnect attempts complete and the record is removed — regardless of
the disconnect outcome, whose failure is swallowed.  If `session.close`
rejects, the chain never completes and the record stays (see the
counterexample). -/
theorem destroy_removes_record_when_close_settles (cs : Connections)
    (fda uid : String) (closeRes discRes : POut)
    (h : closeSession cs fda uid closeRes = some ()) :
    lookupConn (destroyConnect cs fda uid closeRes discRes).1 fda uid = none
    ∧ (destroyConnect cs fda uid closeRes discRes).2 = true := by
  unfold destroyConnect
  rw [h]
  refine ⟨?_, rfl⟩
  unfold lookupConn
  rw [alookup_amod]
  cases hcs : alookup cs fda with
  | none => rfl
  | some dc =>
    show ((alookup (aset (aerase dc uid) uid none) uid).join) = none
    rw [alookup_aset]
    rfl

theorem destroy_removes_record_when_close_settles_witness :
    closeSession [(("e"), [(("D"), some { session := true : Conn })])]
        ("e") ("D") POut.ok = some ()
    ∧ (lookupConn
        (destroyConnect [(("e"), [(("D"), some { session := true : Conn })])]
          ("e") ("D") POut.ok POut.fail).1 ("e") ("D") = none
      ∧ (destroyConnect [(("e"), [(("D"), some { session := true : Conn })])]
          ("e") ("D") POut.ok POut.fail).2 = true) :=
  ⟨rfl, destroy_removes_record_when_close_settles
    [(("e"), [(("D"), some { session := true : Conn })])]
    ("e") ("D") POut.ok POut.fail rfl⟩

/- ### C5: createConnect success path -/

/-- Scenario tag for the createConnect evaluation. -/
def c5Tag : TagItem :=
  { name := some ("t1"), nodeId := "ns=1;i=5", endpointUrl := "opc.tcp://x",
    deviceUid := "D1", type := "int", nodeType := 6 }

/-- C5 (code-bug evaluation): after a fully successful connection
establishment (client connected, session created, subscription created) the
record reaches `connected = true` with session and subscription present —
but the initial tags passed to `createConnect` are **not** registered: the
source calls `addMonitoredTags(subscription, tags, fullDeviceName)` without
the `deviceUid` argument (line 687), the `"undefined"` lookup misses, and no
tag entry, ns entry or monitored-item creation results. -/
theorem createConnect_success_registers_no_tags :
    (let r := createConnectSuccess [] ("opc.tcp://x") ("D1") [c5Tag]
     ((lookupConn r.1 ("opc.tcp://x") ("D1")).map (fun c =>
        (c.client.connected, c.session, c.subscription, c.tags, c.ns)))
        = some (true, true, true, ([] : List (String × TagItem)),
            ([] : List (String × NodeRec)))
     ∧ r.2 = []) :=
  ⟨rfl, rfl⟩

/- ### C6: a node-id is monitored at most once per connection -/

theorem isSome_alookup_aset {α : Type} (l : List (String × α)) (k nid : String)
    (v : α) (h : (alookup l nid).isSome) : (alookup (aset l k v) nid).isSome := by
  by_cases hk : k = nid
  · subst hk
    rw [alookup_aset]
    rfl
  · rw [alookup_aset_ne _ _ _ _ hk]
    exact h

theorem isSome_alookup_amod {α : Type} (l : List (String × α)) (k nid : String)
    (f : α → α) (h : (alookup l nid).isSome) : (alookup (amod l k f) nid).isSome := by
  by_cases hk : k = nid
  · subst hk
    rw [alookup_amod]
    cases hv : alookup l k
    · rw [hv] at h
      simp at h
    · rfl
  · rw [alookup_amod_ne _ _ _ _ hk]
    exact h

theorem addTagStep_err (st : Conn × List String) (tag : TagItem)
    (he : truthyErr tag.err = true) : addTagStep st tag = st := by
  obtain ⟨c, log⟩ := st
  unfold addTagStep
  dsimp only
  rw [if_pos he]

theorem addTagStep_exist (c : Conn) (log : List String) (tag : TagItem)
    (nrec : NodeRec) (he : truthyErr tag.err = false)
    (hns : alookup c.ns tag.nodeId = some nrec) :
    addTagStep (c, log) tag
      = ({ c with
            tags := aset c.tags (tagKey tag)
              { tag with value := getValueByIndex tag nrec.originalValue },
            ns := amod c.ns tag.nodeId (fun nr =>
              { nr with tags := nr.tags
                  ++ [{ tag with value := getValueByIndex tag nrec.originalValue }] }) },
          log) := by
  unfold addTagStep
  have hcond : ¬(truthyErr tag.err = true) := by
    rw [he]
    exact Bool.false_ne_true
  dsimp only
  rw [if_neg hcond, hns]

theorem addTagStep_fresh (c : Conn) (log : List String) (tag : TagItem)
    (he : truthyErr tag.err = false) (hns : alookup c.ns tag.nodeId = none) :
    addTagStep (c, log) tag
      = ({ c with
            tags := aset c.tags (tagKey tag) tag,
            ns := aset c.ns tag.nodeId { originalValue := none, tags := [tag] } },
          log ++ [tag.nodeId]) := by
  unfold addTagStep
  have hcond : ¬(truthyErr tag.err = true) := by
    rw [he]
    exact Bool.false_ne_true
  dsimp only
  rw [if_neg hcond, hns]

/-- The combined fold invariant for `addTagStep` relative to the connection
state `conn0` at the start of the `addMonitoredTags` call: node entries only
grow, logged node-ids were absent initially, the log has no duplicates, and
every logged node-id has an entry now. -/
theorem addTagStep_invariants (conn0 : Conn) (st : Conn × List String)
    (tag : TagItem)
    (hmono : ∀ nid, (alookup conn0.ns nid).isSome → (alookup st.1.ns nid).isSome)
    (hnew : ∀ nid ∈ st.2, alookup conn0.ns nid = none)
    (hnd : st.2.Nodup)
    (hcur : ∀ nid ∈ st.2, (alookup st.1.ns nid).isSome) :
    (∀ nid, (alookup conn0.ns nid).isSome →
        (alookup (addTagStep st tag).1.ns nid).isSome)
    ∧ (∀ nid ∈ (addTagStep st tag).2, alookup conn0.ns nid = none)
    ∧ (addTagStep st tag).2.Nodup
    ∧ (∀ nid ∈ (addTagStep st tag).2,
        (alookup (addTagStep st tag).1.ns nid).isSome) := by
  obtain ⟨c, log⟩ := st
  cases he : truthyErr tag.err with
  | true =>
    rw [addTagStep_err (c, log) tag he]
    exact ⟨hmono, hnew, hnd, hcur⟩
  | false =>
    cases hns : alookup c.ns tag.nodeId with
    | some nrec =>
      rw [addTagStep_exist c log tag nrec he hns]
      refine ⟨?_, hnew, hnd, ?_⟩
      · intro nid h
        exact isSome_alookup_amod _ _ _ _ (hmono nid h)
      · intro nid h
        exact isSome_alookup_amod _ _ _ _ (hcur nid h)
    | none =>
      rw [addTagStep_fresh c log tag he hns]
      have hc0 : alookup conn0.ns tag.nodeId = none := by
        cases h0 : alookup conn0.ns tag.nodeId with
        | none => rfl
        | some x =>
          have := hmono tag.nodeId (by rw [h0]; rfl)
          rw [hns] at this
          simp at this
      refine ⟨?_, ?_, ?_, ?_⟩
      · intro nid h
        exact isSome_alookup_aset _ _ _ _ (hmono nid h)
      · intro nid h
        rw [List.mem_append] at h
        rcases h with h | h
        · exact hnew nid h
        · rw [List.mem_singleton] at h
          subst h
          exact hc0
      · rw [List.nodup_append]
        refine ⟨hnd, List.nodup_singleton _, ?_⟩
        intro nid h1 h2
        rw [List.mem_singleton] at h2
        subst h2
        have := hcur _ h1
        rw [hns] at this
        simp at this
      · intro nid h
        rw [List.mem_append] at h
        rcases h with h | h
        · exact isSome_alookup_aset _ _ _ _ (hcur nid h)
        · rw [List.mem_singleton] at h
          subst h
          rw [alookup_aset]
          rfl

theorem foldl_addTagStep_invariants (conn0 : Conn) (tags : List TagItem)
    (st : Conn × List String)
    (hmono : ∀ nid, (alookup conn0.ns nid).isSome → (alookup st.1.ns nid).isSome)
    (hnew : ∀ nid ∈ st.2, alookup conn0.ns nid = none)
    (hnd : st.2.Nodup)
    (hcur : ∀ nid ∈ st.2, (alookup st.1.ns nid).isSome) :
    (∀ nid, (alookup conn0.ns nid).isSome →
        (alookup (tags.foldl addTagStep st).1.ns nid).isSome)
    ∧ (∀ nid ∈ (tags.foldl addTagStep st).2, alookup conn0.ns nid = none)
    ∧ (tags.foldl addTagStep st).2.Nodup
    ∧ (∀ nid ∈ (tags.foldl addTagStep st).2,
        (alookup (tags.foldl addTagStep st).1.ns nid).isSome) := by
  induction tags generalizing st with
  | nil => exact ⟨hmono, hnew, hnd, hcur⟩
  | cons t ts ih =>
    rw [List.foldl_cons]
    have h := addTagStep_invariants conn0 st t hmono hnew hnd hcur
    exact ih _ h.1 h.2.1 h.2.2.1 h.2.2.2

/-- The per-connection monitor-log invariant: no duplicates, and every
logged node-id has a NodeRecord in the current connection record. -/
def ConnLogInv (cs : Connections) (fda uid : String) (log : List String) : Prop :=
  log.Nodup ∧ ∀ nid ∈ log, ∃ conn,
    lookupConn cs fda uid = some conn ∧ (alookup conn.ns nid).isSome

theorem lookupConn_parts (cs : Connections) (fda uid : String) (conn : Conn)
    (h : lookupConn cs fda uid = some conn) :
    ∃ dc, alookup cs fda = some dc ∧ alookup dc uid = some (some conn) := by
  unfold lookupConn at h
  cases hcs : alookup cs fda with
  | none => rw [hcs] at h; simp at h
  | some dc =>
    rw [hcs] at h
    dsimp only at h
    refine ⟨dc, rfl, ?_⟩
    cases hdc : alookup dc uid with
    | none => rw [hdc] at h; simp [Option.join] at h
    | some c? =>
      rw [hdc] at h
      cases c? with
      | none => simp [Option.join] at h
      | some c =>
        simp [Option.join] at h
        rw [h]

theorem lookupConn_setConn (cs : Connections) (fda uid : String)
    (dc : DeviceConns) (hdc : alookup cs fda = some dc) (c : Conn) :
    lookupConn (setConn cs fda uid c) fda uid = some c := by
  unfold lookupConn setConn
  rw [alookup_amod, hdc]
  show ((alookup (aset dc uid (some c)) uid).join) = some c
  rw [alookup_aset]
  rfl

theorem addMonitoredTags_preserves (cs : Connections) (sub : Bool)
    (tags : List TagItem) (fda uid : String) (log : List String)
    (h : ConnLogInv cs fda uid log) :
    ConnLogInv (addMonitoredTags cs sub tags fda (some uid)).1 fda uid
      (log ++ (addMonitoredTags cs sub tags fda (some uid)).2) := by
  unfold addMonitoredTags
  cases sub with
  | false => simpa using h
  | true =>
    simp only [Bool.not_true, if_false]
    cases hlc : lookupConn cs fda ((some uid).getD ("undefined")) with
    | none => simpa using h
    | some conn =>
      simp only []
      have huid : ((some uid).getD ("undefined")) = uid := rfl
      rw [huid] at hlc
      obtain ⟨dc, hdc, _⟩ := lookupConn_parts cs fda uid conn hlc
      have hf := foldl_addTagStep_invariants conn tags (conn, [])
        (fun nid h => h) (by intro nid h; simp at h) List.nodup_nil
        (by intro nid h; simp at h)
      set r := tags.foldl addTagStep (conn, []) with hr
      have hlook : lookupConn (setConn cs fda uid r.1) fda uid = some r.1 :=
        lookupConn_setConn cs fda uid dc hdc r.1
      constructor
      · rw [List.nodup_append]
        refine ⟨h.1, hf.2.2.1, ?_⟩
        intro nid h1 h2
        obtain ⟨conn', hc', hs'⟩ := h.2 nid h1
        rw [hlc] at hc'
        have hconn : conn' = conn := by
          injection hc'.symm
        subst hconn
        have := hf.2.1 nid h2
        rw [this] at hs'
        simp at hs'
      · intro nid hmem
        rw [List.mem_append] at hmem
        refine ⟨r.1, hlook, ?_⟩
        rcases hmem with h1 | h2
        · obtain ⟨conn', hc', hs'⟩ := h.2 nid h1
          rw [hlc] at hc'
          have hconn : conn' = conn := by injection hc'.symm
          subst hconn
          exact hf.1 nid hs'
        · exact hf.2.2.2 nid h2

theorem checkIfTagsInMonitor_preserves (cs : Connections) (tags : List TagItem)
    (fda uid : String) (log : List String) (h : ConnLogInv cs fda uid log) :
    ConnLogInv (checkIfTagsInMonitor cs tags fda uid).1 fda uid
      (log ++ (checkIfTagsInMonitor cs tags fda uid).2) := by
  unfold checkIfTagsInMonitor
  by_cases hlen : (tags.filter (fun tag =>
      match alookup cs fda with
      | none => true
      | some dc =>
        match (alookup dc uid).join with
        | none => true
        | some conn => !(alookup conn.tags (tagKey tag)).isSome)).length > 0
  · simp only [hlen, if_true]
    exact addMonitoredTags_preserves cs _ _ fda uid log h
  · simp only [hlen, if_false]
    simpa using h

/-- C6: over any sequence of request-time registrations on one connection
(each a `checkIfTagsInMonitor` run, as performed before every read/write),
`subscription.monitor` is never issued twice for the same node-id — the
accumulated monitor log has no duplicates; and a later error-free tag whose
node-id already has a NodeRecord is appended to that record's fan-out list,
with no monitor call. -/
theorem node_monitored_at_most_once (fda uid : String)
    (ops : List (List TagItem)) (cs0 : Connections) :
    (ops.foldl (fun st tags =>
        let r := checkIfTagsInMonitor st.1 tags fda uid
        (r.1, st.2 ++ r.2)) (cs0, ([] : List String))).2.Nodup
    ∧ (∀ (conn : Conn) (tag : TagItem) (nrec : NodeRec),
        truthyErr tag.err = false →
        alookup conn.ns tag.nodeId = some nrec →
        (addTagStep (conn, []) tag).2 = []
        ∧ (alookup (addTagStep (conn, []) tag).1.ns tag.nodeId).map NodeRec.tags
            = some (nrec.tags
                ++ [{ tag with value := getValueByIndex tag nrec.originalValue }])) := by
  constructor
  · have main : ∀ (ops : List (List TagItem)) (cs : Connections) (log : List String),
        ConnLogInv cs fda uid log →
        ConnLogInv (ops.foldl (fun st tags =>
            let r := checkIfTagsInMonitor st.1 tags fda uid
            (r.1, st.2 ++ r.2)) (cs, log)).1 fda uid
          (ops.foldl (fun st tags =>
            let r := checkIfTagsInMonitor st.1 tags fda uid
            (r.1, st.2 ++ r.2)) (cs, log)).2 := by
      intro ops
      induction ops with
      | nil => intro cs log h; exact h
      | cons op rest ih =>
        intro cs log h
        rw [List.foldl_cons]
        exact ih _ _ (checkIfTagsInMonitor_preserves cs op fda uid log h)
    have h0 : ConnLogInv cs0 fda uid [] := ⟨List.nodup_nil, by intro nid h; simp at h⟩
    exact (main ops cs0 [] h0).1
  · intro conn tag nrec herr hns
    rw [addTagStep_exist conn [] tag nrec herr hns]
    constructor
    · rfl
    · rw [alookup_amod, hns]
      rfl

theorem node_monitored_at_most_once_witness :
    truthyErr (fanA3.err) = false
    ∧ alookup [("n", { originalValue := none, tags := [fanA0] : NodeRec })] fanA3.nodeId
        = some { originalValue := none, tags := [fanA0] }
    ∧ ((addTagStep ({ ns := [("n", { originalValue := none, tags := [fanA0] })] : Conn }, []) fanA3).2 = []
      ∧ (alookup (addTagStep ({ ns := [("n", { originalValue := none, tags := [fanA0] })] : Conn }, []) fanA3).1.ns fanA3.nodeId).map NodeRec.tags
          = some ([fanA0]
              ++ [{ fanA3 with value := getValueByIndex fanA3 (none : Option Raw) }])) :=
  ⟨rfl, rfl,
    (node_monitored_at_most_once ("e") ("D") [] []).2
      { ns := [("n", { originalValue := none, tags := [fanA0] })] } fanA3
      { originalValue := none, tags := [fanA0] } rfl rfl⟩

/- ### C3: read answers are ordered, with null (never errorTxt) for unknown
or never-observed tags -/

/-- The per-tag record lookup performed by `opcuaGetValues`. -/
def connTagLookup (cs : Connections) (fda uid key : String) : Option TagItem :=
  match alookup cs fda with
  | none => none
  | some dc => ((alookup dc uid).join).bind (fun conn => alookup conn.tags key)

theorem opcuaGetValues_eq (cs : Connections) (tags : List TagItem)
    (fda uid : String) :
    opcuaGetValues cs tags fda uid
      = tags.map (fun tag => getValue (connTagLookup cs fda uid (tagKey tag))) := rfl

theorem connTagLookup_of_conn (cs : Connections) (fda uid key : String)
    (conn : Conn) (h : lookupConn cs fda uid = some conn) :
    connTagLookup cs fda uid key = alookup conn.tags key := by
  obtain ⟨dc, hdc, hdcu⟩ := lookupConn_parts cs fda uid conn h
  unfold connTagLookup
  rw [hdc]
  dsimp only
  rw [hdcu]
  rfl

theorem connTagLookup_setConn (cs : Connections) (fda uid key : String)
    (dc : DeviceConns) (hdc : alookup cs fda = some dc) (c : Conn) :
    connTagLookup (setConn cs fda uid c) fda uid key = alookup c.tags key := by
  unfold connTagLookup setConn
  rw [alookup_amod, hdc]
  show ((alookup (aset dc uid (some c)) uid).join).bind _ = _
  rw [alookup_aset]
  rfl

theorem addMonitoredTags_false (cs : Connections) (tags : List TagItem)
    (fda : String) (uid? : Option String) :
    addMonitoredTags cs false tags fda uid? = (cs, []) := rfl

theorem addMonitoredTags_noconn (cs : Connections) (tags : List TagItem)
    (fda : String) (uid? : Option String)
    (h : lookupConn cs fda (uid?.getD ("undefined")) = none) :
    addMonitoredTags cs true tags fda uid? = (cs, []) := by
  unfold addMonitoredTags
  rw [show (!true) = false from rfl, if_neg Bool.false_ne_true]
  dsimp only
  rw [h]

theorem addMonitoredTags_active (cs : Connections) (tags : List TagItem)
    (fda : String) (uid? : Option String) (conn : Conn)
    (h : lookupConn cs fda (uid?.getD ("undefined")) = some conn) :
    addMonitoredTags cs true tags fda uid?
      = (setConn cs fda (uid?.getD ("undefined"))
            ((tags.foldl addTagStep (conn, [])).1),
         (tags.foldl addTagStep (conn, [])).2) := by
  unfold addMonitoredTags
  rw [show (!true) = false from rfl, if_neg Bool.false_ne_true]
  dsimp only
  rw [h]

/-- Folding `addTagStep` never touches a tag-map key that no processed
error-free tag carries. -/
theorem foldl_addTagStep_tags_preserved (tags : List TagItem)
    (st : Conn × List String) (key : String)
    (hk : ∀ t ∈ tags, truthyErr t.err = false → tagKey t ≠ key) :
    alookup (tags.foldl addTagStep st).1.tags key = alookup st.1.tags key := by
  induction tags generalizing st with
  | nil => rfl
  | cons t ts ih =>
    rw [List.foldl_cons]
    rw [ih _ (fun x hx => hk x (List.mem_cons_of_mem _ hx))]
    obtain ⟨c, log⟩ := st
    cases he : truthyErr t.err with
    | true => rw [addTagStep_err _ _ he]
    | false =>
      have hne := hk t (List.mem_cons_self _ _) he
      cases hns : alookup c.ns t.nodeId with
      | some nrec =>
        rw [addTagStep_exist c log t nrec he hns]
        exact alookup_aset_ne _ _ _ _ hne
      | none =>
        rw [addTagStep_fresh c log t he hns]
        exact alookup_aset_ne _ _ _ _ hne

theorem addMonitoredTags_tagLookup_preserved (cs : Connections) (sub : Bool)
    (tags : List TagItem) (fda uid key : String)
    (hk : ∀ t ∈ tags, truthyErr t.err = false → tagKey t ≠ key) :
    connTagLookup (addMonitoredTags cs sub tags fda (some uid)).1 fda uid key
      = connTagLookup cs fda uid key := by
  cases sub with
  | false => rw [addMonitoredTags_false]
  | true =>
    cases hlc : lookupConn cs fda uid with
    | none =>
      rw [addMonitoredTags_noconn cs tags fda (some uid) hlc]
    | some conn =>
      rw [addMonitoredTags_active cs tags fda (some uid) conn hlc]
      obtain ⟨dc, hdc, _⟩ := lookupConn_parts cs fda uid conn hlc
      dsimp only
      rw [show ((some uid).getD ("undefined")) = uid from rfl]
      rw [connTagLookup_setConn _ _ _ _ dc hdc]
      rw [foldl_addTagStep_tags_preserved tags (conn, []) key hk]
      rw [connTagLookup_of_conn cs fda uid key conn hlc]

theorem checkIfTagsInMonitor_tagLookup_preserved (cs : Connections)
    (tags : List TagItem) (fda uid key : String) (conn : Conn)
    (hconn : lookupConn cs fda uid = some conn)
    (hk : ∀ t ∈ tags, truthyErr t.err = false →
        (tagKey t ≠ key ∨ (alookup conn.tags (tagKey t)).isSome)) :
    connTagLookup (checkIfTagsInMonitor cs tags fda uid).1 fda uid key
      = alookup conn.tags key := by
  obtain ⟨dc, hdc, hdcu⟩ := lookupConn_parts cs fda uid conn hconn
  have hbase : connTagLookup cs fda uid key = alookup conn.tags key :=
    connTagLookup_of_conn cs fda uid key conn hconn
  unfold checkIfTagsInMonitor
  by_cases hlen : (tags.filter (fun tag =>
      match alookup cs fda with
      | none => true
      | some dc =>
        match (alookup dc uid).join with
        | none => true
        | some conn => !(alookup conn.tags (tagKey tag)).isSome)).length > 0
  · rw [if_pos hlen]
    rw [hconn]
    dsimp only
    rw [addMonitoredTags_tagLookup_preserved cs conn.subscription _ fda uid key ?side]
    · exact hbase
    case side =>
      intro t ht he
      have hm := List.mem_filter.mp ht
      have hpred := hm.2
      rw [hdc] at hpred
      dsimp only at hpred
      rw [hdcu] at hpred
      simp only [Option.join] at hpred
      have hnotsome : (alookup conn.tags (tagKey t)).isSome = false := by
        simpa using hpred
      rcases hk t hm.1 he with hne | hsome
      · exact hne
      · rw [hnotsome] at hsome
        simp at hsome
  · rw [if_neg hlen]
    exact hbase

/-- A missing tag name yields only the TagNotFound error item (the try block
throws at its first line, so no other field is assigned). -/
theorem tagItemOf_unknown (device : DeviceCfg) (deviceUid nm : String)
    (h : alookup device.tags nm = none) :
    tagItemOf Cmd.read device deviceUid (ReqItem.rname nm)
      = { err := some errTagNotFoundTxt } := by
  unfold tagItemOf
  dsimp only
  rw [h]

/-- A found tag with absent options yields only the Config error item for a
read. -/
theorem tagItemOf_config_err (device : DeviceCfg) (deviceUid nm : String)
    (cfg : TagCfg) (h : alookup device.tags nm = some cfg)
    (ho : cfg.options = none) :
    tagItemOf Cmd.read device deviceUid (ReqItem.rname nm)
      = { err := some errConfigTxt } := by
  unfold tagItemOf
  dsimp only
  rw [h]
  dsimp only
  rw [ho]
  rfl

/-- A found tag with options present yields the fully populated error-free
read item. -/
theorem tagItemOf_known_read (device : DeviceCfg) (deviceUid nm : String)
    (cfg : TagCfg) (opts : TagOpts) (h : alookup device.tags nm = some cfg)
    (ho : cfg.options = some opts) :
    tagItemOf Cmd.read device deviceUid (ReqItem.rname nm)
      = { err := none, name := some nm, nodeId := opts.nodeId,
          nodeType := opts.nodeType, arrayIndex := opts.arrayIndex,
          endpointUrl := device.endpointUrl, deviceUid := deviceUid,
          type := cfg.type, subscribed := cfg.subscribed,
          read := some cfg.read, setValue := none } := by
  unfold tagItemOf
  dsimp only
  rw [h]
  dsimp only
  rw [ho]
  rfl

/-- An error-free read item comes from a configured tag with options, and
its map key is the request name. -/
theorem tagItemOf_read_errfree (device : DeviceCfg) (deviceUid nm : String)
    (h : truthyErr (tagItemOf Cmd.read device deviceUid (ReqItem.rname nm)).err
        = false) :
    ∃ cfg opts, alookup device.tags nm = some cfg ∧ cfg.options = some opts
      ∧ tagKey (tagItemOf Cmd.read device deviceUid (ReqItem.rname nm)) = nm := by
  cases hc : alookup device.tags nm with
  | none =>
    rw [tagItemOf_unknown device deviceUid nm hc] at h
    have : truthyErr (some errTagNotFoundTxt) = true := by decide
    simp [this] at h
  | some cfg =>
    cases ho : cfg.options with
    | none =>
      rw [tagItemOf_config_err device deviceUid nm cfg hc ho] at h
      have : truthyErr (some errConfigTxt) = true := by decide
      simp [this] at h
    | some opts =>
      refine ⟨cfg, opts, rfl, ho, ?_⟩
      rw [tagItemOf_known_read device deviceUid nm cfg opts hc ho]
      rfl

theorem getValue_some_value (r : TagItem) (v : Raw) (hv : r.value = some v)
    (hnn : isNullRaw v = false) : getValue (some r) = v := by
  unfold getValue
  dsimp only
  rw [hv]
  cases v with
  | null => simp [isNullRaw] at hnn
  | boolv b => rfl
  | num n => rfl
  | str s => rfl
  | arr xs => rfl
  | errObj e => rfl
  | datev s => rfl

theorem getValue_fallback (r : TagItem)
    (hval : r.value = none ∨ r.value = some Raw.null)
    (herr : truthyErr r.err = false) : getValue (some r) = Raw.null := by
  have herr2 : ∀ e, r.err = some e → e.isEmpty = true := by
    intro e he
    unfold truthyErr at herr
    rw [he] at herr
    simpa using herr
  unfold getValue
  dsimp only
  rcases hval with h | h <;> rw [h] <;>
    · cases he : r.err with
      | none => rfl
      | some e =>
        have := herr2 e he
        dsimp only
        rw [if_pos this]

/-- C3 amended: for a read over an existing device with a live connection
(and no tag literally keyed `"undefined"`), the answer is an ordered list of
the same length as the request whose i-th element is: null when the i-th
name is unknown in the device, and also null when the i-th name is
configured but its options object is absent (in both cases never
`{errorTxt: ...}` — the error item has no name, is never registered, and the
error branch of `getValue` needs a stored record carrying an error, which
registration never creates); the stored (last observed projected) value when
the i-th tag is registered with a non-null value; and null when it is
registered error-free with no observed value. -/
theorem read_values_ordered_null_semantics
    (dl : List (String × DeviceCfg)) (cs : Connections) (deviceUid : String)
    (names : List String) (device : DeviceCfg) (conn : Conn)
    (hdev : alookup dl deviceUid = some device)
    (hconn : lookupConn cs device.endpointUrl deviceUid = some conn)
    (hu1 : alookup device.tags ("undefined") = none)
    (hu2 : alookup conn.tags ("undefined") = none) :
    ∃ vals, (getTagsValuesModel dl cs deviceUid names true).1 = .ok vals
      ∧ vals.length = names.length
      ∧ (∀ i nm, names.get? i = some nm → alookup device.tags nm = none →
          vals.get? i = some Raw.null)
      ∧ (∀ i nm cfg, names.get? i = some nm →
          alookup device.tags nm = some cfg → cfg.options = none →
          vals.get? i = some Raw.null)
      ∧ (∀ i nm cfg opts r v, names.get? i = some nm →
          alookup device.tags nm = some cfg → cfg.options = some opts →
          alookup conn.tags nm = some r → r.value = some v →
          isNullRaw v = false → vals.get? i = some v)
      ∧ (∀ i nm cfg opts r, names.get? i = some nm →
          alookup device.tags nm = some cfg → cfg.options = some opts →
          alookup conn.tags nm = some r →
          (r.value = none ∨ r.value = some Raw.null) → truthyErr r.err = false →
          vals.get? i = some Raw.null) := by
  have hfda : (getFullDeviceAddress dl deviceUid).getD ("null")
      = device.endpointUrl := by
    unfold getFullDeviceAddress
    rw [hdev]
    rfl
  unfold getTagsValuesModel
  rw [hdev]
  dsimp only
  set T := deviceTagsToArray Cmd.read device (names.map ReqItem.rname) deviceUid
    with hT
  have hTlen : T.length = names.length := by
    rw [hT]
    unfold deviceTagsToArray
    rw [List.length_map, List.length_map]
  have hTget : ∀ i, T.get? i = (names.get? i).map
      (fun nm => tagItemOf Cmd.read device deviceUid (ReqItem.rname nm)) := by
    intro i
    rw [hT]
    unfold deviceTagsToArray
    rw [List.get?_map, List.get?_map]
    cases names.get? i <;> rfl
  have hTmem : ∀ t ∈ T, ∃ nm,
      t = tagItemOf Cmd.read device deviceUid (ReqItem.rname nm) := by
    intro t ht
    rw [hT] at ht
    unfold deviceTagsToArray at ht
    rw [List.mem_map] at ht
    obtain ⟨it, hit, hteq⟩ := ht
    rw [List.mem_map] at hit
    obtain ⟨nm, _, hit2⟩ := hit
    exact ⟨nm, by rw [← hteq, ← hit2]⟩
  by_cases hn : T.length = 0
  · rw [if_pos hn]
    have hnames : names.length = 0 := by omega
    refine ⟨[], rfl, by simpa using hnames.symm, ?_, ?_, ?_, ?_⟩
    · intro i nm hni _
      rw [List.get?_eq_none.mpr (by omega)] at hni
      exact Option.noConfusion hni
    · intro i nm cfg hni _ _
      rw [List.get?_eq_none.mpr (by omega)] at hni
      exact Option.noConfusion hni
    · intro i nm cfg opts r v hni _ _ _ _ _
      rw [List.get?_eq_none.mpr (by omega)] at hni
      exact Option.noConfusion hni
    · intro i nm cfg opts r hni _ _ _ _ _
      rw [List.get?_eq_none.mpr (by omega)] at hni
      exact Option.noConfusion hni
  · rw [if_neg hn]
    rw [hfda, hconn]
    dsimp only
    have hkundef : ∀ t ∈ T, truthyErr t.err = false →
        (tagKey t ≠ ("undefined")
          ∨ (alookup conn.tags (tagKey t)).isSome) := by
      intro t ht he
      left
      obtain ⟨nm', ht'⟩ := hTmem t ht
      subst ht'
      obtain ⟨cfg, opts, hcfg, _, hkey'⟩ :=
        tagItemOf_read_errfree device deviceUid nm' he
      rw [hkey']
      intro hcontra
      rw [hcontra, hu1] at hcfg
      exact Option.noConfusion hcfg
    refine ⟨_, rfl, ?_, ?_, ?_, ?_, ?_⟩
    · rw [opcuaGetValues_eq, List.length_map, hTlen]
    · intro i nm hni hnm
      rw [opcuaGetValues_eq, List.get?_map, hTget i, hni]
      simp only [Option.map_some']
      rw [tagItemOf_unknown device deviceUid nm hnm]
      rw [show tagKey ({ err := some errTagNotFoundTxt } : TagItem)
            = ("undefined") from rfl]
      rw [checkIfTagsInMonitor_tagLookup_preserved cs T device.endpointUrl
            deviceUid ("undefined") conn hconn hkundef]
      rw [hu2]
      rfl
    · intro i nm cfg hni hcfg hopts
      rw [opcuaGetValues_eq, List.get?_map, hTget i, hni]
      simp only [Option.map_some']
      rw [tagItemOf_config_err device deviceUid nm cfg hcfg hopts]
      rw [show tagKey ({ err := some errConfigTxt } : TagItem)
            = ("undefined") from rfl]
      rw [checkIfTagsInMonitor_tagLookup_preserved cs T device.endpointUrl
            deviceUid ("undefined") conn hconn hkundef]
      rw [hu2]
      rfl
    · intro i nm cfg opts r v hni hcfg hopts hreg hval hnn
      have hk : ∀ t ∈ T, truthyErr t.err = false →
          (tagKey t ≠ nm ∨ (alookup conn.tags (tagKey t)).isSome) := by
        intro t _ _
        by_cases hkeq : tagKey t = nm
        · right
          rw [hkeq, hreg]
          rfl
        · left
          exact hkeq
      rw [opcuaGetValues_eq, List.get?_map, hTget i, hni]
      simp only [Option.map_some']
      have hkey : tagKey (tagItemOf Cmd.read device deviceUid (ReqItem.rname nm))
          = nm := by
        rw [tagItemOf_known_read device deviceUid nm cfg opts hcfg hopts]
        rfl
      rw [hkey]
      rw [checkIfTagsInMonitor_tagLookup_preserved cs T device.endpointUrl
            deviceUid nm conn hconn hk]
      rw [hreg, getValue_some_value r v hval hnn]
    · intro i nm cfg opts r hni hcfg hopts hreg hval herr
      have hk : ∀ t ∈ T, truthyErr t.err = false →
          (tagKey t ≠ nm ∨ (alookup conn.tags (tagKey t)).isSome) := by
        intro t _ _
        by_cases hkeq : tagKey t = nm
        · right
          rw [hkeq, hreg]
          rfl
        · left
          exact hkeq
      rw [opcuaGetValues_eq, List.get?_map, hTget i, hni]
      simp only [Option.map_some']
      have hkey : tagKey (tagItemOf Cmd.read device deviceUid (ReqItem.rname nm))
          = nm := by
        rw [tagItemOf_known_read device deviceUid nm cfg opts hcfg hopts]
        rfl
      rw [hkey]
      rw [checkIfTagsInMonitor_tagLookup_preserved cs T device.endpointUrl
            deviceUid nm conn hconn hk]
      rw [hreg, getValue_fallback r hval herr]

/-- Device for the C3 scenarios: one well-configured tag keyed `t1`. -/
def c3Device : DeviceCfg :=
  { tags := [("t1",
      { name := "temp", type := "int",
        options := some { nodeId := "n1", nodeType := 6, arrayIndex := -1 } })],
    endpointUrl := "e" }

/-- Live connection with no registered tags yet. -/
def c3Conns : Connections :=
  [("e", [("D", some
    { client := { connected := true }, session := true, subscription := true,
      tags := [], ns := [] })])]

/-- C3 counterexample: a read of the unknown tag name `zzz` on an existing
device over a live connection answers `[null]`, not `[{errorTxt: ...}]` as
the claim states: the TagNotFound item never gets a `name`, is never
registered, and `getValue` finds no stored record. -/
theorem read_unknown_tag_yields_null_not_errObj :
    (getTagsValuesModel [(("D"), c3Device)] c3Conns ("D") [("zzz")] true).1
      = .ok [Raw.null]
    ∧ isErrObjRaw Raw.null = false :=
  ⟨rfl, rfl⟩

/-- Registered record for the C3 witness: `t1` observed with value 7. -/
def c3wRec : TagItem :=
  { name := some ("t1"), nodeId := "n1", endpointUrl := "e", deviceUid := "D",
    type := "int", nodeType := 6, value := some (Raw.num 7) }

def c3wConn : Conn :=
  { client := { connected := true }, session := true, subscription := true,
    tags := [("t1", c3wRec)],
    ns := [("n1", { originalValue := some (Raw.num 7), tags := [c3wRec] })] }

def c3wConns : Connections := [("e", [("D", some c3wConn)])]

theorem read_values_ordered_null_semantics_witness :
    (alookup [(("D"), c3Device)] ("D") = some c3Device
      ∧ lookupConn c3wConns (c3Device.endpointUrl) ("D") = some c3wConn
      ∧ alookup c3Device.tags ("undefined") = none
      ∧ alookup c3wConn.tags ("undefined") = none)
    ∧ (∃ vals,
        (getTagsValuesModel [(("D"), c3Device)] c3wConns ("D") [("t1")] true).1
          = .ok vals
        ∧ vals.length = ([("t1")] : List String).length
        ∧ (∀ i nm, ([("t1")] : List String).get? i = some nm →
            alookup c3Device.tags nm = none → vals.get? i = some Raw.null)
        ∧ (∀ i nm cfg, ([("t1")] : List String).get? i = some nm →
            alookup c3Device.tags nm = some cfg → cfg.options = none →
            vals.get? i = some Raw.null)
        ∧ (∀ i nm cfg opts r v, ([("t1")] : List String).get? i = some nm →
            alookup c3Device.tags nm = some cfg → cfg.options = some opts →
            alookup c3wConn.tags nm = some r → r.value = some v →
            isNullRaw v = false → vals.get? i = some v)
        ∧ (∀ i nm cfg opts r, ([("t1")] : List String).get? i = some nm →
            alookup c3Device.tags nm = some cfg → cfg.options = some opts →
            alookup c3wConn.tags nm = some r →
            (r.value = none ∨ r.value = some Raw.null) →
            truthyErr r.err = false → vals.get? i = some Raw.null)) :=
  ⟨⟨rfl, rfl, rfl, rfl⟩,
    read_values_ordered_null_semantics [(("D"), c3Device)] c3wConns ("D")
      [("t1")] c3Device c3wConn rfl rfl rfl rfl⟩

/- ### C7: writes to a non-writeable tag -/

theorem findSome?_congr {α β : Type} (l : List α) (f g : α → Option β)
    (h : ∀ x ∈ l, f x = g x) : l.findSome? f = l.findSome? g := by
  induction l with
  | nil => rfl
  | cons a t ih =>
    rw [List.findSome?_cons, List.findSome?_cons,
      h a (List.mem_cons_self _ _), ih (fun x hx => h x (List.mem_cons_of_mem _ hx))]

theorem findSome?_isSome_of_mem {α β : Type} (l : List α) (f : α → Option β)
    (x : α) (hx : x ∈ l) (hf : (f x).isSome) : (l.findSome? f).isSome := by
  induction l with
  | nil => simp at hx
  | cons a t ih =>
    rw [List.findSome?_cons]
    cases hfa : f a with
    | some b => rfl
    | none =>
      rcases List.mem_cons.mp hx with h | h
      · subst h
        rw [hfa] at hf
        simp at hf
      · exact ih h

theorem addTagStep_session (st : Conn × List String) (tag : TagItem) :
    (addTagStep st tag).1.session = st.1.session := by
  obtain ⟨c, log⟩ := st
  cases he : truthyErr tag.err with
  | true => rw [addTagStep_err _ _ he]
  | false =>
    cases hns : alookup c.ns tag.nodeId with
    | some nrec => rw [addTagStep_exist c log tag nrec he hns]
    | none => rw [addTagStep_fresh c log tag he hns]

theorem foldl_addTagStep_session (tags : List TagItem) (st : Conn × List String) :
    (tags.foldl addTagStep st).1.session = st.1.session := by
  induction tags generalizing st with
  | nil => rfl
  | cons t ts ih =>
    rw [List.foldl_cons, ih]
    exact addTagStep_session st t

/-- Registration before a request keeps the record present and its session
flag unchanged. -/
theorem checkIfTagsInMonitor_record (cs : Connections) (tags : List TagItem)
    (fda uid : String) (conn : Conn) (hconn : lookupConn cs fda uid = some conn) :
    ∃ conn2, lookupConn (checkIfTagsInMonitor cs tags fda uid).1 fda uid = some conn2
      ∧ conn2.session = conn.session := by
  obtain ⟨dc, hdc, _⟩ := lookupConn_parts cs fda uid conn hconn
  unfold checkIfTagsInMonitor
  by_cases hlen : (tags.filter (fun tag =>
      match alookup cs fda with
      | none => true
      | some dc =>
        match (alookup dc uid).join with
        | none => true
        | some conn => !(alookup conn.tags (tagKey tag)).isSome)).length > 0
  · rw [if_pos hlen]
    rw [hconn]
    dsimp only
    cases hsub : conn.subscription with
    | false =>
      rw [addMonitoredTags_false]
      exact ⟨conn, hconn, rfl⟩
    | true =>
      rw [addMonitoredTags_active cs _ fda (some uid) conn hconn]
      dsimp only
      rw [show ((some uid).getD ("undefined")) = uid from rfl]
      refine ⟨_, lookupConn_setConn cs fda uid dc hdc _, ?_⟩
      rw [foldl_addTagStep_session]
  · rw [if_neg hlen]
    exact ⟨conn, hconn, rfl⟩

/-- A write item for a found but non-writeable tag carries the
TagNotWriteable error (whether or not its options are readable). -/
theorem tagItemOf_write_notwriteable (device : DeviceCfg) (deviceUid nm : String)
    (x : Raw) (cfg : TagCfg) (h : alookup device.tags nm = some cfg)
    (hw : cfg.write = false) :
    (tagItemOf Cmd.write device deviceUid (ReqItem.rset (nm, x))).err
      = some errTagNotWriteableTxt := by
  unfold tagItemOf
  dsimp only
  rw [h]
  dsimp only
  have herr0 : (if (decide (Cmd.write = Cmd.write) && !cfg.write) = true
      then some errTagNotWriteableTxt else none) = some errTagNotWriteableTxt := by
    rw [hw]
    rfl
  cases ho : cfg.options with
  | none =>
    dsimp only
    rw [herr0]
    rw [if_pos (by decide : truthyErr (some errTagNotWriteableTxt) = true)]
  | some opts =>
    dsimp only
    rw [herr0]

/-- C7: a write request containing a tag with `write = false` assembles all
sibling entries (same length as the request), marks that tag's entry with
the TagNotWriteable error, issues no OPC UA write for that tag, and the
whole request fails with the first non-empty tag error (under the standing
assumptions that the device exists, a sessioned connection record exists,
and no error-free sibling's `getSetValue` throws — a throw would reject with
a TypeError instead). -/
theorem write_not_writeable_semantics
    (dl : List (String × DeviceCfg)) (cs : Connections) (deviceUid : String)
    (items : List (String × Raw)) (writeOk : WriteCall → Bool)
    (device : DeviceCfg) (conn : Conn) (i : Nat) (nm : String) (x : Raw)
    (cfg : TagCfg)
    (hdev : alookup dl deviceUid = some device)
    (hconn : lookupConn cs device.endpointUrl deviceUid = some conn)
    (hsess : conn.session = true)
    (hitem : items.get? i = some (nm, x))
    (hcfg : alookup device.tags nm = some cfg)
    (hw : cfg.write = false)
    (hnothrow : ∀ t ∈ deviceTagsToArray Cmd.write device
          (items.map ReqItem.rset) deviceUid,
        truthyErr t.err = false →
        (getSetValue (checkIfTagsInMonitor cs
            (deviceTagsToArray Cmd.write device (items.map ReqItem.rset) deviceUid)
            device.endpointUrl deviceUid).1 t deviceUid).isSome = true) :
    (deviceTagsToArray Cmd.write device (items.map ReqItem.rset) deviceUid).length
        = items.length
    ∧ ((deviceTagsToArray Cmd.write device (items.map ReqItem.rset) deviceUid).get?
          i).map TagItem.err = some (some errTagNotWriteableTxt)
    ∧ (setTagsValuesModel dl cs deviceUid items writeOk true).1.get? i = some none
    ∧ (firstTagErr (deviceTagsToArray Cmd.write device (items.map ReqItem.rset)
          deviceUid)).isSome = true
    ∧ (setTagsValuesModel dl cs deviceUid items writeOk true).2
        = .error ((firstTagErr (deviceTagsToArray Cmd.write device
            (items.map ReqItem.rset) deviceUid)).getD ("")) := by
  set T := deviceTagsToArray Cmd.write device (items.map ReqItem.rset) deviceUid
    with hT
  have hTget : T.get? i
      = some (tagItemOf Cmd.write device deviceUid (ReqItem.rset (nm, x))) := by
    rw [hT]
    unfold deviceTagsToArray
    rw [List.get?_map, List.get?_map, hitem]
    rfl
  have htagerr : (tagItemOf Cmd.write device deviceUid (ReqItem.rset (nm, x))).err
      = some errTagNotWriteableTxt :=
    tagItemOf_write_notwriteable device deviceUid nm x cfg hcfg hw
  have htagTruthy :
      truthyErr (tagItemOf Cmd.write device deviceUid (ReqItem.rset (nm, x))).err
        = true := by
    rw [htagerr]
    decide
  have hTlen : T.length = items.length := by
    rw [hT]
    unfold deviceTagsToArray
    rw [List.length_map, List.length_map]
  have hTpos : ¬T.length = 0 := by
    intro hzero
    have : T.get? i = none := List.get?_eq_none.mpr (by omega)
    rw [hTget] at this
    exact Option.noConfusion this
  have hfda : (getFullDeviceAddress dl deviceUid).getD ("null")
      = device.endpointUrl := by
    unfold getFullDeviceAddress
    rw [hdev]
    rfl
  have hmodel : setTagsValuesModel dl cs deviceUid items writeOk true
      = opcuaSetValues (checkIfTagsInMonitor cs T device.endpointUrl deviceUid).1
          T device.endpointUrl deviceUid writeOk := by
    unfold setTagsValuesModel
    rw [hdev]
    dsimp only
    rw [← hT, if_neg hTpos, hfda, hconn]
  obtain ⟨conn2, hlook2, hsess2⟩ :=
    checkIfTagsInMonitor_record cs T device.endpointUrl deviceUid conn hconn
  have hsess2t : conn2.session = true := by rw [hsess2, hsess]
  have hnots : ¬((!conn2.session) = true) := by
    rw [hsess2t]
    simp
  have hmem : tagItemOf Cmd.write device deviceUid (ReqItem.rset (nm, x)) ∈ T :=
    List.get?_mem hTget
  have hcong : T.findSome? (fun tag =>
        if truthyErr tag.err then tag.err
        else if (getSetValue
            (checkIfTagsInMonitor cs T device.endpointUrl deviceUid).1 tag
            deviceUid).isNone then some errTypeErrorTxt
        else none)
      = firstTagErr T := by
    unfold firstTagErr
    apply findSome?_congr
    intro t ht
    cases he : truthyErr t.err with
    | true => rfl
    | false =>
      rw [if_neg Bool.false_ne_true, if_neg Bool.false_ne_true]
      have hs := hnothrow t ht he
      cases hgs : getSetValue
          (checkIfTagsInMonitor cs T device.endpointUrl deviceUid).1 t deviceUid with
      | none =>
        rw [hgs] at hs
        simp at hs
      | some v => rfl
  have hfse : (firstTagErr T).isSome = true := by
    apply findSome?_isSome_of_mem T _ _ hmem
    rw [if_pos htagTruthy, htagerr]
    rfl
  refine ⟨hTlen, ?_, ?_, hfse, ?_⟩
  · rw [hTget]
    simp only [Option.map_some']
    rw [htagerr]
  · rw [hmodel]
    unfold opcuaSetValues
    rw [hlook2]
    dsimp only
    rw [if_neg hnots]
    dsimp only
    rw [List.get?_map, hTget]
    simp only [Option.map_some']
    rw [if_pos htagTruthy]
  · rw [hmodel]
    unfold opcuaSetValues
    rw [hlook2]
    dsimp only
    rw [if_neg hnots]
    dsimp only
    obtain ⟨e, he⟩ := Option.isSome_iff_exists.mp hfse
    rw [hcong, he]
    rfl

/-- Writeable sibling for the C7 witness. -/
def c7RwCfg : TagCfg :=
  { name := "w", type := "int", write := true,
    options := some { nodeId := "na", nodeType := 6, arrayIndex := -1 } }

/-- Non-writeable tag for the C7 witness. -/
def c7RoCfg : TagCfg :=
  { name := "r", type := "int", write := false,
    options := some { nodeId := "nb", nodeType := 6, arrayIndex := -1 } }

def c7Device : DeviceCfg :=
  { tags := [("rw1", c7RwCfg), ("ro", c7RoCfg)], endpointUrl := "e" }

def c7Conn : Conn :=
  { client := { connected := true }, session := true, subscription := true }

def c7Conns : Connections := [("e", [("D", some c7Conn)])]

def c7Items : List (String × Raw) := [(("rw1"), Raw.num 5), (("ro"), Raw.num 1)]

theorem write_not_writeable_semantics_witness :
    (alookup [(("D"), c7Device)] ("D") = some c7Device
      ∧ lookupConn c7Conns (c7Device.endpointUrl) ("D") = some c7Conn
      ∧ c7Conn.session = true
      ∧ c7Items.get? 1 = some (("ro"), Raw.num 1)
      ∧ alookup c7Device.tags ("ro") = some c7RoCfg
      ∧ c7RoCfg.write = false)
    ∧ ((deviceTagsToArray Cmd.write c7Device (c7Items.map ReqItem.rset) ("D")).length
          = c7Items.length
      ∧ ((deviceTagsToArray Cmd.write c7Device (c7Items.map ReqItem.rset) ("D")).get?
            1).map TagItem.err = some (some errTagNotWriteableTxt)
      ∧ (setTagsValuesModel [(("D"), c7Device)] c7Conns ("D") c7Items
            (fun _ => true) true).1.get? 1 = some none
      ∧ (firstTagErr (deviceTagsToArray Cmd.write c7Device
            (c7Items.map ReqItem.rset) ("D"))).isSome = true
      ∧ (setTagsValuesModel [(("D"), c7Device)] c7Conns ("D") c7Items
            (fun _ => true) true).2
          = .error ((firstTagErr (deviceTagsToArray Cmd.write c7Device
              (c7Items.map ReqItem.rset) ("D"))).getD (""))) :=
  ⟨⟨rfl, rfl, rfl, rfl, rfl, rfl⟩,
    write_not_writeable_semantics [(("D"), c7Device)] c7Conns ("D") c7Items
      (fun _ => true) c7Device c7Conn 1 ("ro") (Raw.num 1) c7RoCfg
      rfl rfl rfl rfl rfl rfl (by decide)⟩

/- ### C8: populateDevice browse-merge idempotence -/

/-- Decimal digit characters satisfy `Char.isDigit`. -/
theorem digitChar_isDigit (d : Nat) (h : d < 10) : (Nat.digitChar d).isDigit = true := by
  interval_cases d <;> decide

/-- Reading a decimal digit character back as `parseInt` does. -/
theorem digitChar_toNat (d : Nat) (h : d < 10) : (Nat.digitChar d).toNat - 48 = d := by
  interval_cases d <;> decide

/-- Folding the `parseInt` accumulator over a big-endian digit-character list
recovers the rendered value. -/
theorem foldl_digit_chars (ds : List Nat) (h : ∀ d ∈ ds, d < 10) : ∀ a : Nat,
    ((ds.reverse.map Nat.digitChar).foldl (fun acc c => acc * 10 + (c.toNat - 48)) a)
      = a * 10 ^ ds.length + Nat.ofDigits 10 ds := by
  induction ds with
  | nil => intro a; simp
  | cons d t ih =>
    intro a
    have hd : d < 10 := h d (List.mem_cons_self d t)
    have ht : ∀ x ∈ t, x < 10 := fun x hx => h x (List.mem_cons_of_mem d hx)
    rw [List.reverse_cons, List.map_append, List.foldl_append, ih ht a]
    simp only [List.map_cons, List.map_nil, List.foldl_cons, List.foldl_nil]
    rw [digitChar_toNat d hd, Nat.ofDigits_cons, List.length_cons]
    ring

/-- The driver's freshly allocated numeric tag uids round-trip through
`parseInt`. -/
theorem parse_decRender (n : Nat) (hn : n ≠ 0) : parseIntLeading (decRender n) = some n := by
  have hdig : ∀ d ∈ Nat.digits 10 n, d < 10 := fun d hd =>
    Nat.digits_lt_base (by norm_num) hd
  have hLne : Nat.digits 10 n ≠ [] := Nat.digits_ne_nil_iff_ne_zero.mpr hn
  have htake : ((Nat.digits 10 n).reverse.map Nat.digitChar).takeWhile Char.isDigit
      = (Nat.digits 10 n).reverse.map Nat.digitChar := by
    refine List.takeWhile_eq_self_iff.mpr ?_
    intro c hc
    obtain ⟨d, hd, rfl⟩ := List.mem_map.1 hc
    exact digitChar_isDigit d (hdig d (List.mem_reverse.1 hd))
  simp only [parseIntLeading, decRender, if_neg hn, digitsLE_eq]
  rw [htake]
  have hempty : (((Nat.digits 10 n).reverse.map Nat.digitChar).isEmpty) = false := by
    simp [hLne]
  rw [hempty, if_neg Bool.false_ne_true, foldl_digit_chars _ hdig 0]
  simp [Nat.ofDigits_digits]

/-- A rendered nonzero uid is a nonempty string. -/
theorem decRender_ne_empty (n : Nat) (hn : n ≠ 0) : decRender n ≠ "" := by
  rw [decRender, if_neg hn]
  intro hc
  have h2 : (digitsLE n).reverse.map Nat.digitChar = [] := congrArg String.data hc
  rw [digitsLE_eq] at h2
  simp [Nat.digits_ne_nil_iff_ne_zero.mpr hn] at h2

/-- Writing an absent key appends the new property. -/
theorem aset_fresh {α : Type} (l : List (String × α)) (k : String) (v : α)
    (h : k ∉ l.map Prod.fst) : aset l k v = l ++ [(k, v)] := by
  induction l with
  | nil => rfl
  | cons p t ih =>
    obtain ⟨pk, pv⟩ := p
    simp only [List.map_cons, List.mem_cons, not_or] at h
    rw [aset, if_neg (fun he => h.1 he.symm), ih h.2]
    rfl

/-- In-place modification hits exactly the split-out occurrence. -/
theorem amod_split {α : Type} (l1 l2 : List (String × α)) (k : String) (v : α)
    (f : α → α) (h : k ∉ l1.map Prod.fst) :
    amod (l1 ++ (k, v) :: l2) k f = l1 ++ (k, f v) :: l2 := by
  induction l1 with
  | nil => simp [amod]
  | cons p t ih =>
    obtain ⟨pk, pv⟩ := p
    simp only [List.map_cons, List.mem_cons, not_or] at h
    rw [List.cons_append, amod, if_neg (fun he => h.1 he.symm), ih h.2]
    rfl

/-- Lookup hits exactly the split-out occurrence. -/
theorem alookup_split {α : Type} (l1 l2 : List (String × α)) (k : String) (v : α)
    (h : k ∉ l1.map Prod.fst) : alookup (l1 ++ (k, v) :: l2) k = some v := by
  induction l1 with
  | nil => simp [alookup]
  | cons p t ih =>
    obtain ⟨pk, pv⟩ := p
    simp only [List.map_cons, List.mem_cons, not_or] at h
    rw [List.cons_append, alookup, if_neg (fun he => h.1 he.symm), ih h.2]

/-- Deletion passes over a property with a different key. -/
theorem aerase_cons_ne {α : Type} (pk : String) (pv : α) (t : List (String × α))
    (k : String) (h : pk ≠ k) : aerase ((pk, pv) :: t) k = (pk, pv) :: aerase t k := by
  rw [aerase, if_neg h]

/-- With no tagmap entry of the requested name, `findIndex` misses and the
tagmap is unchanged. -/
theorem consumeFirst_not_found (m : List (String × String)) (n : String)
    (h : ∀ q ∈ m, q.2 ≠ n) : consumeFirst m n = (none, m) := by
  induction m with
  | nil => rfl
  | cons q t ih =>
    obtain ⟨qk, qn⟩ := q
    have hq : qn ≠ n := h (qk, qn) (List.mem_cons_self _ _)
    simp only [consumeFirst, if_neg hq]
    rw [ih (fun q' hq' => h q' (List.mem_cons_of_mem _ hq'))]

/-- `findIndex` returns the first entry of the requested name; its uid is
read off and the entry is marked consumed. -/
theorem consumeFirst_found (m1 : List (String × String)) (u n : String)
    (m2 : List (String × String)) (h : ∀ q ∈ m1, q.2 ≠ n) :
    consumeFirst (m1 ++ (u, n) :: m2) n = (some u, m1 ++ ("", n) :: m2) := by
  induction m1 with
  | nil => simp [consumeFirst]
  | cons q t ih =>
    obtain ⟨qk, qn⟩ := q
    have hq : qn ≠ n := h (qk, qn) (List.mem_cons_self _ _)
    simp only [List.cons_append, consumeFirst, if_neg hq]
    simp [ih (fun q' hq' => h q' (List.mem_cons_of_mem _ hq'))]

/-- Any hit in a tagmap can be split at its first occurrence. -/
theorem exists_first_with_name (m : List (String × String)) (n : String)
    (h : ∃ q ∈ m, q.2 = n) :
    ∃ m1 u m2, m = m1 ++ (u, n) :: m2 ∧ ∀ q ∈ m1, q.2 ≠ n := by
  induction m with
  | nil => simp at h
  | cons q t ih =>
    by_cases hq : q.2 = n
    · refine ⟨[], q.1, t, ?_, by simp⟩
      rw [List.nil_append, ← hq]
    · obtain ⟨q', hq', hn⟩ := h
      rcases List.mem_cons.1 hq' with rfl | hmem
      · exact absurd hn hq
      · obtain ⟨m1, u, m2, he, hf⟩ := ih ⟨q', hmem, hn⟩
        refine ⟨q :: m1, u, m2, by rw [he, List.cons_append], ?_⟩
        intro q'' hq''
        rcases List.mem_cons.1 hq'' with rfl | h2
        · exact hq
        · exact hf q'' h2

theorem forall₂_app {α β : Type} {R : α → β → Prop} :
    ∀ {l1 : List α} {r1 : List β}, List.Forall₂ R l1 r1 →
      ∀ {l2 : List α} {r2 : List β}, List.Forall₂ R l2 r2 →
        List.Forall₂ R (l1 ++ l2) (r1 ++ r2) := by
  intro l1 r1 h1
  induction h1 with
  | nil => intro l2 r2 h2; exact h2
  | cons ha htl ih => intro l2 r2 h2; exact List.Forall₂.cons ha (ih h2)

theorem forall₂_mem_left {α β : Type} {R : α → β → Prop} :
    ∀ {l : List α} {r : List β}, List.Forall₂ R l r → ∀ a ∈ l, ∃ b ∈ r, R a b := by
  intro l r h
  induction h with
  | nil => intro a ha; exact absurd ha (List.not_mem_nil a)
  | cons ha htl ih =>
    intro a hmem
    rcases List.mem_cons.1 hmem with rfl | h2
    · exact ⟨_, List.mem_cons_self _ _, ha⟩
    · obtain ⟨b, hb, hr⟩ := ih a h2
      exact ⟨b, List.mem_cons_of_mem _ hb, hr⟩

theorem forall₂_map_self {α β : Type} {R : β → α → Prop} (l : List α) (f : α → β)
    (h : ∀ a ∈ l, R (f a) a) : List.Forall₂ R (l.map f) l := by
  induction l with
  | nil => exact List.Forall₂.nil
  | cons a t ih =>
    exact List.Forall₂.cons (h a (List.mem_cons_self _ _))
      (ih fun a' ha' => h a' (List.mem_cons_of_mem _ ha'))

theorem forall₂_append_cons_inv {α β : Type} {R : α → β → Prop} :
    ∀ (l1 : List α) (a : α) (l2 : List α) (r : List β),
      List.Forall₂ R (l1 ++ a :: l2) r →
      ∃ r1 b r2, r = r1 ++ b :: r2 ∧ List.Forall₂ R l1 r1 ∧ R a b
        ∧ List.Forall₂ R l2 r2 := by
  intro l1
  induction l1 with
  | nil =>
    intro a l2 r h
    cases h with
    | cons hab htl => exact ⟨[], _, _, rfl, List.Forall₂.nil, hab, htl⟩
  | cons x t ih =>
    intro a l2 r h
    cases h with
    | cons hx htl =>
      obtain ⟨r1, b, r2, rfl, hf, hab, hl2⟩ := ih a l2 _ htl
      exact ⟨_ :: r1, b, r2, rfl, List.Forall₂.cons hx hf, hab, hl2⟩

/-- The names of the consumed (uid cleared) tagmap entries, in order. -/
def marksOf : List (String × String) → List String
  | [] => []
  | m :: t => if m.1 = "" then m.2 :: marksOf t else marksOf t

theorem marksOf_append (a b : List (String × String)) :
    marksOf (a ++ b) = marksOf a ++ marksOf b := by
  induction a with
  | nil => rfl
  | cons m t ih =>
    by_cases hm : m.1 = ""
    · rw [List.cons_append, marksOf, if_pos hm, ih, marksOf, if_pos hm, List.cons_append]
    · rw [List.cons_append, marksOf, if_neg hm, ih, marksOf, if_neg hm]

theorem marksOf_nil_of_unmarked (m : List (String × String))
    (h : ∀ q ∈ m, q.1 ≠ "") : marksOf m = [] := by
  induction m with
  | nil => rfl
  | cons q t ih =>
    rw [marksOf, if_neg (h q (List.mem_cons_self _ _))]
    exact ih fun q' h' => h q' (List.mem_cons_of_mem _ h')

/-- The values `populateDevice` writes into a tag entry for one discovered
browse tag (name, node options and projected type). -/
def btValues (bt : BrowseTag) (c : TagCfg) : Prop :=
  c.name = bt.name
    ∧ c.options = some { nodeId := bt.nodeId, nodeType := bt.type,
                         arrayIndex := bt.arrayIndex }
    ∧ c.type = getTagType bt.type

/-- Pairing invariant between a tagmap entry and its originating tag entry:
the names agree, and the uid is either still intact or cleared by an already
processed browse tag that overwrote the tag with its values. -/
def TMrel (done : List BrowseTag) (m : String × String) (p : String × TagCfg) : Prop :=
  m.2 = p.2.name ∧ (m.1 = p.1 ∨ (m.1 = "" ∧ ∃ bt ∈ done, btValues bt p.2))

theorem TMrel_mono (d1 d2 : List BrowseTag) (h : ∀ bt ∈ d1, bt ∈ d2)
    (m : String × String) (p : String × TagCfg) (hr : TMrel d1 m p) : TMrel d2 m p := by
  obtain ⟨h1, h2⟩ := hr
  refine ⟨h1, h2.imp id fun hh => ⟨hh.1, ?_⟩⟩
  obtain ⟨bt, hbt, hv⟩ := hh.2
  exact ⟨bt, h bt hbt, hv⟩

/-- The tag entries paired with consumed tagmap entries (the survivors of the
final deletion pass). -/
def keepMarked : List (String × String) → List (String × TagCfg) → List (String × TagCfg)
  | [], _ => []
  | _ :: _, [] => []
  | m :: ms, p :: ps => if m.1 = "" then p :: keepMarked ms ps else keepMarked ms ps

theorem keepMarked_sublist (tm : List (String × String)) :
    ∀ o : List (String × TagCfg), (keepMarked tm o).Sublist o := by
  induction tm with
  | nil => intro o; rw [keepMarked]; exact List.nil_sublist o
  | cons m ms ih =>
    intro o
    cases o with
    | nil => rw [keepMarked]
    | cons p ps =>
      by_cases hm : m.1 = ""
      · rw [keepMarked, if_pos hm]; exact List.Sublist.cons₂ p (ih ps)
      · rw [keepMarked, if_neg hm]; exact List.Sublist.cons p (ih ps)

theorem keepMarked_names (tm : List (String × String)) :
    ∀ (o : List (String × TagCfg)),
      List.Forall₂ (fun (m : String × String) (p : String × TagCfg) =>
        m.2 = p.2.name) tm o →
      (keepMarked tm o).map (fun p => p.2.name) = marksOf tm := by
  induction tm with
  | nil => intro o h; cases h; rfl
  | cons m ms ih =>
    intro o h
    cases h with
    | @cons _ p _ ps h1 h2 =>
      by_cases hm : m.1 = ""
      · rw [keepMarked, if_pos hm, marksOf, if_pos hm, List.map_cons, ih ps h2, h1]
      · rw [keepMarked, if_neg hm, marksOf, if_neg hm, ih ps h2]

theorem keepMarked_values (bts : List BrowseTag) (tm : List (String × String)) :
    ∀ (o : List (String × TagCfg)),
      List.Forall₂ (TMrel bts) tm o → (∀ q ∈ o, q.1 ≠ "") →
      ∀ q ∈ keepMarked tm o, ∃ bt ∈ bts, btValues bt q.2 := by
  induction tm with
  | nil => intro o h _ q hq; cases h; rw [keepMarked] at hq; exact absurd hq (List.not_mem_nil q)
  | cons m ms ih =>
    intro o h hk q hq
    cases h with
    | @cons _ p _ ps h1 h2 =>
      by_cases hm : m.1 = ""
      · rw [keepMarked, if_pos hm] at hq
        rcases List.mem_cons.1 hq with rfl | hq2
        · rcases h1.2 with hl | hr
          · have hp : q.1 = "" := by rw [← hl]; exact hm
            exact absurd hp (hk q (List.mem_cons_self _ _))
          · exact hr.2
        · exact ih ps h2 (fun q' h' => hk q' (List.mem_cons_of_mem _ h')) q hq2
      · rw [keepMarked, if_neg hm] at hq
        exact ih ps h2 (fun q' h' => hk q' (List.mem_cons_of_mem _ h')) q hq

/-- The deletion pass slides over an entry whose key it never erases. -/
theorem delfold_cons (tm : List (String × String)) :
    ∀ (p : String × TagCfg) (ts : List (String × TagCfg)),
      (∀ m ∈ tm, m.1 ≠ "" → m.1 ≠ p.1) →
      tm.foldl (fun ts m => if m.1 ≠ "" then aerase ts m.1 else ts) (p :: ts)
        = p :: tm.foldl (fun ts m => if m.1 ≠ "" then aerase ts m.1 else ts) ts := by
  induction tm with
  | nil => intro p ts _; rfl
  | cons m ms ih =>
    intro p ts h
    simp only [List.foldl_cons]
    by_cases hm : m.1 = ""
    · simp only [if_neg (not_not_intro hm)]
      exact ih p ts fun m' h' => h m' (List.mem_cons_of_mem _ h')
    · simp only [if_pos hm]
      obtain ⟨pk, pv⟩ := p
      have hne : pk ≠ m.1 := fun he => h m (List.mem_cons_self _ _) hm he.symm
      rw [aerase_cons_ne pk pv ts m.1 hne]
      exact ih (pk, pv) (aerase ts m.1) fun m' h' => h m' (List.mem_cons_of_mem _ h')

/-- The deletion pass erases exactly the tag entries whose tagmap partner was
never consumed; appended (freshly created) entries survive untouched. -/
theorem delfold_spec (tm : List (String × String)) :
    ∀ (o c : List (String × TagCfg)),
      List.Forall₂ (fun (m : String × String) (p : String × TagCfg) =>
        m.1 = p.1 ∨ m.1 = "") tm o →
      (((o ++ c).map Prod.fst).Nodup) →
      tm.foldl (fun ts m => if m.1 ≠ "" then aerase ts m.1 else ts) (o ++ c)
        = keepMarked tm o ++ c := by
  induction tm with
  | nil => intro o c h _; cases h; rfl
  | cons m ms ih =>
    intro o c h hnd
    cases h with
    | @cons _ p _ ps h1 h2 =>
      obtain ⟨pk, pv⟩ := p
      simp only [List.cons_append, List.foldl_cons]
      simp only [List.cons_append, List.map_cons, List.nodup_cons] at hnd
      by_cases hm : m.1 = ""
      · simp only [if_neg (not_not_intro hm)]
        have hcomm : ∀ m' ∈ ms, m'.1 ≠ "" → m'.1 ≠ (pk, pv).1 := by
          intro m' hm' hne
          obtain ⟨q, hq, hrq⟩ := forall₂_mem_left h2 m' hm'
          have hqk : m'.1 = q.1 := hrq.resolve_right hne
          intro he
          apply hnd.1
          have he2 : q.1 = pk := by rw [← hqk]; exact he
          rw [← he2]
          exact List.mem_map_of_mem Prod.fst (List.mem_append_left c hq)
        rw [delfold_cons ms (pk, pv) (ps ++ c) hcomm,
          ih ps c h2 hnd.2, keepMarked, if_pos hm, List.cons_append]
      · simp only [if_pos hm]
        have hup : m.1 = pk := h1.resolve_right hm
        rw [hup, aerase, if_pos rfl, ih ps c h2 hnd.2, keepMarked, if_neg hm]

/-- With every tagmap entry consumed, the deletion pass is the identity. -/
theorem delfold_all_marked (tm : List (String × String)) :
    ∀ (ts : List (String × TagCfg)), (∀ m ∈ tm, m.1 = "") →
      tm.foldl (fun ts m => if m.1 ≠ "" then aerase ts m.1 else ts) ts = ts := by
  induction tm with
  | nil => intro ts _; rfl
  | cons m ms ih =>
    intro ts h
    simp only [List.foldl_cons, if_neg (not_not_intro (h m (List.mem_cons_self _ _)))]
    exact ih ts fun m' h' => h m' (List.mem_cons_of_mem _ h')

theorem btValues_new (bt : BrowseTag) (newId : Nat) :
    btValues bt (browseCfgNew bt newId) := ⟨rfl, rfl, rfl⟩

theorem btValues_update (bt : BrowseTag) (c : TagCfg) (h : c.name = bt.name) :
    btValues bt (browseCfgUpdate bt c) := ⟨h, rfl, rfl⟩

/-- A tag that already carries a browse tag's values is untouched by its
overwrite lines. -/
theorem browseCfgUpdate_id (bt : BrowseTag) (c : TagCfg) (h : btValues bt c) :
    browseCfgUpdate bt c = c := by
  obtain ⟨h1, h2, h3⟩ := h
  rw [browseCfgUpdate, ← h2, ← h3]

/-- The creation branch of one browse-merge iteration: with no usable uid a
fresh `++maxTagId` key is allocated and a full tag is written; nothing can
throw here. -/
theorem populateStep_create (st : PopState) (bt : BrowseTag)
    (h : (consumeFirst st.tagmap bt.name).1.getD ("") = "") :
    populateStep st bt =
      some ⟨aset st.tags (decRender (st.maxTagId + 1))
          (browseCfgNew bt (st.maxTagId + 1)),
        (consumeFirst st.tagmap bt.name).2, st.maxTagId + 1⟩ := by
  simp only [populateStep]
  rw [if_pos h]

/-- The reuse branch of one browse-merge iteration: an intact uid naming a
tag whose options object is present keeps the entry and only overwrites its
node options and type. -/
theorem populateStep_update (st : PopState) (bt : BrowseTag) (u : String)
    (c : TagCfg) (h : (consumeFirst st.tagmap bt.name).1 = some u) (hu : u ≠ "")
    (hlk : alookup st.tags u = some c) (hos : c.options.isSome = true) :
    populateStep st bt =
      some ⟨amod st.tags u (browseCfgUpdate bt),
        (consumeFirst st.tagmap bt.name).2, st.maxTagId⟩ := by
  simp only [populateStep, h, Option.getD_some]
  rw [if_neg hu, hlk]
  dsimp only
  rw [if_pos hos]

/-- The starting accumulator bounds the `maxTagId` fold. -/
theorem maxTagId_fold_start (l : List (String × TagCfg)) : ∀ a : Nat,
    a ≤ l.foldl (fun m p =>
      match parseIntLeading p.1 with
      | some n => if n > m then n else m
      | none => m) a := by
  induction l with
  | nil => intro a; exact le_rfl
  | cons p t ih =>
    intro a
    refine le_trans ?_ (ih _)
    cases hp : parseIntLeading p.1 with
    | none => simp [hp]
    | some n =>
      simp only [hp]
      by_cases hgt : n > a
      · rw [if_pos hgt]; exact le_of_lt hgt
      · rw [if_neg hgt]

/-- Every parsed existing key is bounded by the computed `maxTagId`. -/
theorem maxTagId_fold_bound (l : List (String × TagCfg)) : ∀ (a : Nat)
    (p : String × TagCfg), p ∈ l → ∀ n, parseIntLeading p.1 = some n →
    n ≤ l.foldl (fun m p =>
      match parseIntLeading p.1 with
      | some n => if n > m then n else m
      | none => m) a := by
  induction l with
  | nil => intro a p hp; exact absurd hp (List.not_mem_nil p)
  | cons q t ih =>
    intro a p hp n hn
    rcases List.mem_cons.1 hp with rfl | hmem
    · refine le_trans ?_ (maxTagId_fold_start t _)
      simp only [List.foldl_cons, hn]
      by_cases hgt : n > a
      · rw [if_pos hgt]
      · rw [if_neg hgt]; omega
    · exact ih _ p hmem n hn

theorem nodup_snoc_of (l : List String) (x : String) (h : l.Nodup) (hx : x ∉ l) :
    (l ++ [x]).Nodup := by
  rw [List.nodup_append]
  exact ⟨h, List.nodup_singleton x, fun a ha ha2 => hx ((List.mem_singleton.1 ha2) ▸ ha)⟩

/-- The browse-merge fold invariant: starting from a state whose tags split
into original entries (paired entrywise with the tagmap) and freshly created
entries, each processed browse tag either reuses the unique intact tagmap
entry of its name or creates a fresh tag under a fresh numeric uid, and every
bookkeeping fact is preserved. -/
theorem populate_fold_spec (rem : List BrowseTag) :
    ∀ (done : List BrowseTag) (orig created : List (String × TagCfg))
      (tagmap : List (String × String)) (maxId : Nat),
      ((done ++ rem).map BrowseTag.name).Nodup →
      List.Forall₂ (TMrel done) tagmap orig →
      (((orig ++ created).map Prod.fst).Nodup) →
      (∀ p ∈ orig ++ created, p.1 ≠ "") →
      (∀ p ∈ orig ++ created, p.2.options.isSome = true) →
      (∀ p ∈ orig ++ created, ∀ n, parseIntLeading p.1 = some n → n ≤ maxId) →
      (∀ p ∈ created, ∃ bt ∈ done, btValues bt p.2) →
      ((marksOf tagmap ++ created.map (fun p => p.2.name)).Nodup) →
      (∀ bt ∈ done, bt.name ∈ marksOf tagmap
        ∨ bt.name ∈ created.map (fun p => p.2.name)) →
      (∀ n ∈ marksOf tagmap, n ∈ done.map BrowseTag.name) →
      (∀ n ∈ created.map (fun p => p.2.name), n ∈ done.map BrowseTag.name) →
      ∃ orig2 created2 tagmap2 maxId2,
        rem.foldl (fun acc bt => acc.bind (fun st => populateStep st bt))
            (some ⟨orig ++ created, tagmap, maxId⟩)
          = some ⟨orig2 ++ created2, tagmap2, maxId2⟩
        ∧ List.Forall₂ (TMrel (done ++ rem)) tagmap2 orig2
        ∧ (((orig2 ++ created2).map Prod.fst).Nodup)
        ∧ (∀ p ∈ orig2 ++ created2, p.1 ≠ "")
        ∧ (∀ p ∈ created2, ∃ bt ∈ done ++ rem, btValues bt p.2)
        ∧ ((marksOf tagmap2 ++ created2.map (fun p => p.2.name)).Nodup)
        ∧ (∀ bt ∈ done ++ rem, bt.name ∈ marksOf tagmap2
            ∨ bt.name ∈ created2.map (fun p => p.2.name)) := by
  induction rem with
  | nil =>
    intro done orig created tagmap maxId hN hrel hnd hne _ hpb hcv hmk hcomp hsub1 hsub2
    exact ⟨orig, created, tagmap, maxId, rfl,
      by simpa using hrel, hnd, hne, by simpa using hcv, hmk, by simpa using hcomp⟩
  | cons bt rem' ih =>
    intro done orig created tagmap maxId hN hrel hnd hne hop hpb hcv hmk hcomp hsub1 hsub2
    have hDD : done ++ bt :: rem' = (done ++ [bt]) ++ rem' := by simp
    have hN' : (((done ++ [bt]) ++ rem').map BrowseTag.name).Nodup := by
      rw [← hDD]; exact hN
    have hbtdone : bt.name ∉ done.map BrowseTag.name := by
      have h1 : ((done.map BrowseTag.name)
          ++ bt.name :: (rem'.map BrowseTag.name)).Nodup := by simpa using hN
      intro hmem
      rcases List.nodup_append.1 h1 with ⟨_, _, hdisj⟩
      exact hdisj hmem (List.mem_cons_self _ _)
    have hdonesub : ∀ x ∈ done, x ∈ done ++ [bt] := fun x hx =>
      List.mem_append_left _ hx
    have hbtmem : bt ∈ done ++ [bt] :=
      List.mem_append_right _ (List.mem_singleton.2 rfl)
    have hdnsub : ∀ x ∈ done.map BrowseTag.name,
        x ∈ (done ++ [bt]).map BrowseTag.name := by
      intro x hx; rw [List.map_append]; exact List.mem_append_left _ hx
    have hbtn : bt.name ∈ (done ++ [bt]).map BrowseTag.name := by
      rw [List.map_append]; exact List.mem_append_right _ (by simp)
    rw [List.foldl_cons]
    simp only [Option.some_bind]
    by_cases hfind : ∃ q ∈ tagmap, q.2 = bt.name
    · -- browse name hits the tagmap: split at the first occurrence
      obtain ⟨m1, u, m2, hmsplit, hm1f⟩ := exists_first_with_name tagmap bt.name hfind
      subst hmsplit
      obtain ⟨o1, p, o2, horig, hrel1, hrelmid, hrel2⟩ :=
        forall₂_append_cons_inv m1 (u, bt.name) m2 orig hrel
      subst horig
      have hpname : p.2.name = bt.name := hrelmid.1.symm
      rcases hrelmid.2 with hup | hcons
      · -- the uid is intact: reuse branch
        have hup2 : u = p.1 := hup
        have hpne : p.1 ≠ "" := hne p (List.mem_append_left _
          (List.mem_append_right _ (List.mem_cons_self _ _)))
        have hune : u ≠ "" := by rw [hup2]; exact hpne
        have hndflat : (o1.map Prod.fst
            ++ p.1 :: (o2 ++ created).map Prod.fst).Nodup := by simpa using hnd
        have hmid := List.nodup_cons.1 (List.nodup_middle.1 hndflat)
        have hpo1 : p.1 ∉ o1.map Prod.fst := fun hx =>
          hmid.1 (List.mem_append_left _ hx)
        have hcf : consumeFirst (m1 ++ (u, bt.name) :: m2) bt.name
            = (some u, m1 ++ ("", bt.name) :: m2) :=
          consumeFirst_found m1 u bt.name m2 hm1f
        have hamod : amod ((o1 ++ p :: o2) ++ created) u (browseCfgUpdate bt)
            = (o1 ++ (p.1, browseCfgUpdate bt p.2) :: o2) ++ created := by
          rw [show (o1 ++ p :: o2) ++ created
              = o1 ++ (p.1, p.2) :: (o2 ++ created) by simp, hup2,
            amod_split o1 (o2 ++ created) p.1 p.2 _ hpo1]
          simp
        have hlk : alookup ((o1 ++ p :: o2) ++ created) p.1 = some p.2 := by
          rw [show (o1 ++ p :: o2) ++ created
              = o1 ++ (p.1, p.2) :: (o2 ++ created) from by simp]
          exact alookup_split o1 (o2 ++ created) p.1 p.2 hpo1
        have hos : p.2.options.isSome = true := hop p (List.mem_append_left _
          (List.mem_append_right _ (List.mem_cons_self _ _)))
        have hstate : populateStep ⟨(o1 ++ p :: o2) ++ created,
            m1 ++ (u, bt.name) :: m2, maxId⟩ bt
            = some ⟨(o1 ++ (p.1, browseCfgUpdate bt p.2) :: o2) ++ created,
               m1 ++ ("", bt.name) :: m2, maxId⟩ := by
          rw [populateStep_update _ bt u p.2 (congrArg Prod.fst hcf) hune
            (by rw [hup2]; exact hlk) hos]
          rw [hcf, hamod]
        have holdmarks : marksOf (m1 ++ (u, bt.name) :: m2)
            = marksOf m1 ++ marksOf m2 := by
          rw [marksOf_append, marksOf, if_neg hune]
        have hnewmarks : marksOf (m1 ++ ("", bt.name) :: m2)
            = marksOf m1 ++ bt.name :: marksOf m2 := by
          rw [marksOf_append, marksOf, if_pos rfl]
        rw [holdmarks] at hmk hsub1 hcomp
        -- the invariant for the next state
        have H2 : List.Forall₂ (TMrel (done ++ [bt]))
            (m1 ++ ("", bt.name) :: m2)
            (o1 ++ (p.1, browseCfgUpdate bt p.2) :: o2) := by
          refine forall₂_app
            (List.Forall₂.imp (fun m q hr => TMrel_mono done _ hdonesub m q hr) hrel1)
            (List.Forall₂.cons ?_
              (List.Forall₂.imp (fun m q hr => TMrel_mono done _ hdonesub m q hr) hrel2))
          exact ⟨hpname.symm, Or.inr ⟨rfl, bt, hbtmem, btValues_update bt p.2 hpname⟩⟩
        have hkeq : ((o1 ++ (p.1, browseCfgUpdate bt p.2) :: o2) ++ created).map Prod.fst
            = ((o1 ++ p :: o2) ++ created).map Prod.fst := by simp
        have H3 : (((o1 ++ (p.1, browseCfgUpdate bt p.2) :: o2) ++ created).map
            Prod.fst).Nodup := by rw [hkeq]; exact hnd
        have H4 : ∀ q ∈ (o1 ++ (p.1, browseCfgUpdate bt p.2) :: o2) ++ created,
            q.1 ≠ "" := by
          intro q hq
          rcases List.mem_append.1 hq with hq' | hqc
          · rcases List.mem_append.1 hq' with h1 | h2
            · exact hne q (List.mem_append_left _ (List.mem_append_left _ h1))
            · rcases List.mem_cons.1 h2 with rfl | h3
              · exact hpne
              · exact hne q (List.mem_append_left _
                  (List.mem_append_right _ (List.mem_cons_of_mem _ h3)))
          · exact hne q (List.mem_append_right _ hqc)
        have Hop : ∀ q ∈ (o1 ++ (p.1, browseCfgUpdate bt p.2) :: o2) ++ created,
            q.2.options.isSome = true := by
          intro q hq
          rcases List.mem_append.1 hq with hq' | hqc
          · rcases List.mem_append.1 hq' with h1 | h2
            · exact hop q (List.mem_append_left _ (List.mem_append_left _ h1))
            · rcases List.mem_cons.1 h2 with rfl | h3
              · rfl
              · exact hop q (List.mem_append_left _
                  (List.mem_append_right _ (List.mem_cons_of_mem _ h3)))
          · exact hop q (List.mem_append_right _ hqc)
        have H5 : ∀ q ∈ (o1 ++ (p.1, browseCfgUpdate bt p.2) :: o2) ++ created,
            ∀ n, parseIntLeading q.1 = some n → n ≤ maxId := by
          intro q hq n hn
          rcases List.mem_append.1 hq with hq' | hqc
          · rcases List.mem_append.1 hq' with h1 | h2
            · exact hpb q (List.mem_append_left _ (List.mem_append_left _ h1)) n hn
            · rcases List.mem_cons.1 h2 with rfl | h3
              · exact hpb p (List.mem_append_left _
                  (List.mem_append_right _ (List.mem_cons_self _ _))) n hn
              · exact hpb q (List.mem_append_left _
                  (List.mem_append_right _ (List.mem_cons_of_mem _ h3))) n hn
          · exact hpb q (List.mem_append_right _ hqc) n hn
        have H6 : ∀ q ∈ created, ∃ b ∈ done ++ [bt], btValues b q.2 := by
          intro q hq
          obtain ⟨b, hb, hv⟩ := hcv q hq
          exact ⟨b, hdonesub b hb, hv⟩
        have H7 : (marksOf (m1 ++ ("", bt.name) :: m2)
            ++ created.map (fun p => p.2.name)).Nodup := by
          rw [hnewmarks]
          simp only [List.append_assoc, List.cons_append]
          rw [List.nodup_middle, List.nodup_cons]
          constructor
          · intro hx
            rcases List.mem_append.1 hx with h1 | h2
            · exact hbtdone (hsub1 bt.name (List.mem_append_left _ h1))
            · rcases List.mem_append.1 h2 with h3 | h4
              · exact hbtdone (hsub1 bt.name (List.mem_append_right _ h3))
              · exact hbtdone (hsub2 bt.name h4)
          · simpa [List.append_assoc] using hmk
        have H8 : ∀ b ∈ done ++ [bt], b.name ∈ marksOf (m1 ++ ("", bt.name) :: m2)
            ∨ b.name ∈ created.map (fun p => p.2.name) := by
          intro b hb
          rw [hnewmarks]
          rcases List.mem_append.1 hb with hbd | hbbt
          · rcases hcomp b hbd with hL | hR
            · left
              rcases List.mem_append.1 hL with h1 | h2
              · exact List.mem_append_left _ h1
              · exact List.mem_append_right _ (List.mem_cons_of_mem _ h2)
            · right; exact hR
          · left
            rw [List.mem_singleton.1 hbbt]
            exact List.mem_append_right _ (List.mem_cons_self _ _)
        have H9 : ∀ n ∈ marksOf (m1 ++ ("", bt.name) :: m2),
            n ∈ (done ++ [bt]).map BrowseTag.name := by
          intro n hn
          rw [hnewmarks] at hn
          rcases List.mem_append.1 hn with h1 | h2
          · exact hdnsub n (hsub1 n (List.mem_append_left _ h1))
          · rcases List.mem_cons.1 h2 with rfl | h3
            · exact hbtn
            · exact hdnsub n (hsub1 n (List.mem_append_right _ h3))
        have H10 : ∀ n ∈ created.map (fun p => p.2.name),
            n ∈ (done ++ [bt]).map BrowseTag.name := fun n hn =>
          hdnsub n (hsub2 n hn)
        rw [hstate, hDD]
        exact ih (done ++ [bt]) (o1 ++ (p.1, browseCfgUpdate bt p.2) :: o2) created
          (m1 ++ ("", bt.name) :: m2) maxId hN' H2 H3 H4 Hop H5 H6 H7 H8 H9 H10
      · -- the first entry of this name was already consumed: impossible,
        -- its consumer would share the browse name
        obtain ⟨bt', hbt', hv⟩ := hcons.2
        refine absurd (List.mem_map.2 ⟨bt', hbt', ?_⟩) hbtdone
        rw [← hv.1]; exact hpname
    · -- no tagmap entry of this name: creation branch
      push_neg at hfind
      have hcf := consumeFirst_not_found tagmap bt.name hfind
      have hfresh : decRender (maxId + 1) ∉ (orig ++ created).map Prod.fst := by
        intro hx
        obtain ⟨q, hq, hqe⟩ := List.mem_map.1 hx
        have hb := hpb q hq (maxId + 1)
          (by rw [show (Prod.fst q) = q.1 from rfl, hqe]
              exact parse_decRender _ (Nat.succ_ne_zero maxId))
        omega
      have hstate : populateStep ⟨orig ++ created, tagmap, maxId⟩ bt
          = some ⟨orig ++ (created ++ [(decRender (maxId + 1),
              browseCfgNew bt (maxId + 1))]), tagmap, maxId + 1⟩ := by
        rw [populateStep_create _ bt (by dsimp only; rw [hcf]; rfl)]
        rw [hcf, aset_fresh (orig ++ created) _ _ hfresh, List.append_assoc]
      have H2 : List.Forall₂ (TMrel (done ++ [bt])) tagmap orig :=
        List.Forall₂.imp (fun m q hr => TMrel_mono done _ hdonesub m q hr) hrel
      have hnd' : ((orig ++ (created ++ [(decRender (maxId + 1),
          browseCfgNew bt (maxId + 1))])).map Prod.fst).Nodup := by
        rw [← List.append_assoc, List.map_append]
        exact nodup_snoc_of _ _ hnd (by simpa using hfresh)
      have hne' : ∀ q ∈ orig ++ (created ++ [(decRender (maxId + 1),
          browseCfgNew bt (maxId + 1))]), q.1 ≠ "" := by
        intro q hq
        rcases List.mem_append.1 hq with h1 | h2
        · exact hne q (List.mem_append_left _ h1)
        · rcases List.mem_append.1 h2 with h3 | h4
          · exact hne q (List.mem_append_right _ h3)
          · rw [List.mem_singleton.1 h4]
            exact decRender_ne_empty _ (Nat.succ_ne_zero maxId)
      have hop' : ∀ q ∈ orig ++ (created ++ [(decRender (maxId + 1),
          browseCfgNew bt (maxId + 1))]), q.2.options.isSome = true := by
        intro q hq
        rcases List.mem_append.1 hq with h1 | h2
        · exact hop q (List.mem_append_left _ h1)
        · rcases List.mem_append.1 h2 with h3 | h4
          · exact hop q (List.mem_append_right _ h3)
          · rw [List.mem_singleton.1 h4]
            rfl
      have hpb' : ∀ q ∈ orig ++ (created ++ [(decRender (maxId + 1),
          browseCfgNew bt (maxId + 1))]), ∀ n, parseIntLeading q.1 = some n →
          n ≤ maxId + 1 := by
        intro q hq n hn
        rcases List.mem_append.1 hq with h1 | h2
        · exact le_trans (hpb q (List.mem_append_left _ h1) n hn) (Nat.le_succ maxId)
        · rcases List.mem_append.1 h2 with h3 | h4
          · exact le_trans (hpb q (List.mem_append_right _ h3) n hn) (Nat.le_succ maxId)
          · rw [List.mem_singleton.1 h4] at hn
            dsimp only at hn
            rw [parse_decRender _ (Nat.succ_ne_zero maxId)] at hn
            exact le_of_eq (Option.some.inj hn).symm
      have hcv' : ∀ q ∈ created ++ [(decRender (maxId + 1),
          browseCfgNew bt (maxId + 1))], ∃ b ∈ done ++ [bt], btValues b q.2 := by
        intro q hq
        rcases List.mem_append.1 hq with h1 | h2
        · obtain ⟨b, hb, hv⟩ := hcv q h1
          exact ⟨b, hdonesub b hb, hv⟩
        · rw [List.mem_singleton.1 h2]
          exact ⟨bt, hbtmem, btValues_new bt (maxId + 1)⟩
      have hcn' : (created ++ [(decRender (maxId + 1),
          browseCfgNew bt (maxId + 1))]).map (fun p => p.2.name)
          = created.map (fun p => p.2.name) ++ [bt.name] := by
        simp [browseCfgNew]
      have hmk' : (marksOf tagmap ++ (created ++ [(decRender (maxId + 1),
          browseCfgNew bt (maxId + 1))]).map (fun p => p.2.name)).Nodup := by
        rw [hcn', ← List.append_assoc]
        refine nodup_snoc_of _ _ hmk ?_
        intro hx
        rcases List.mem_append.1 hx with h1 | h2
        · exact hbtdone (hsub1 bt.name h1)
        · exact hbtdone (hsub2 bt.name h2)
      have hcomp' : ∀ b ∈ done ++ [bt], b.name ∈ marksOf tagmap
          ∨ b.name ∈ (created ++ [(decRender (maxId + 1),
              browseCfgNew bt (maxId + 1))]).map (fun p => p.2.name) := by
        intro b hb
        rw [hcn']
        rcases List.mem_append.1 hb with hbd | hbbt
        · rcases hcomp b hbd with hL | hR
          · exact Or.inl hL
          · exact Or.inr (List.mem_append_left _ hR)
        · right
          rw [List.mem_singleton.1 hbbt]
          exact List.mem_append_right _ (List.mem_singleton.2 rfl)
      have hsub2' : ∀ n ∈ (created ++ [(decRender (maxId + 1),
          browseCfgNew bt (maxId + 1))]).map (fun p => p.2.name),
          n ∈ (done ++ [bt]).map BrowseTag.name := by
        intro n hn
        rw [hcn'] at hn
        rcases List.mem_append.1 hn with h1 | h2
        · exact hdnsub n (hsub2 n h1)
        · rw [List.mem_singleton.1 h2]; exact hbtn
      rw [hstate, hDD]
      exact ih (done ++ [bt]) orig (created ++ [(decRender (maxId + 1),
          browseCfgNew bt (maxId + 1))]) tagmap (maxId + 1) hN' H2 hnd' hne' hop' hpb'
        hcv' hmk' hcomp' (fun n hn => hdnsub n (hsub1 n hn)) hsub2'

/-- The shape of `device.tags` after one successful browse merge: distinct
nonempty uids, and a name-bijection with the discovered list, every entry
already carrying its browse tag's values. -/
def browsePopulated (bts : List BrowseTag) (s : DeviceCfg) : Prop :=
  ((s.tags.map Prod.fst).Nodup) ∧ (∀ p ∈ s.tags, p.1 ≠ "")
    ∧ (∀ p ∈ s.tags, ∃ bt ∈ bts, btValues bt p.2)
    ∧ ((s.tags.map (fun p => p.2.name)).Nodup)
    ∧ (∀ bt ∈ bts, ∃ p ∈ s.tags, p.2.name = bt.name)

/-- Every `populateDevice` run that completes (does not throw) resets the
browse trigger to `"Stop"`. -/
theorem populateDevice_trigger (d : DeviceCfg) (b : Option (List BrowseTag))
    (s : DeviceCfg) (h : populateDevice d b = some s) :
    s.browseTrigger = "Stop" := by
  cases b with
  | none =>
    simp only [populateDevice] at h
    obtain rfl := Option.some.inj h
    rfl
  | some bts =>
    simp only [populateDevice] at h
    split at h
    · exact Option.noConfusion h
    · obtain rfl := Option.some.inj h
      rfl

/-- A browse merge of a list with pairwise-distinct names over a device with
distinct nonempty tag uids and no absent options object completes without
throwing and leaves the tags in the canonical populated shape. -/
theorem populateDevice_establishes (d : DeviceCfg) (bts : List BrowseTag)
    (hnames : (bts.map BrowseTag.name).Nodup)
    (hkeys : (d.tags.map Prod.fst).Nodup)
    (hne : ∀ p ∈ d.tags, p.1 ≠ "")
    (hopts : ∀ p ∈ d.tags, p.2.options.isSome = true) :
    ∃ s, populateDevice d (some bts) = some s ∧ browsePopulated bts s := by
  have hm0 : marksOf (d.tags.map (fun p => (p.1, p.2.name))) = [] :=
    marksOf_nil_of_unmarked _ (by
      intro q hq
      obtain ⟨p, hp, rfl⟩ := List.mem_map.1 hq
      exact hne p hp)
  have hspec := populate_fold_spec bts [] d.tags []
    (d.tags.map (fun p => (p.1, p.2.name)))
    (d.tags.foldl (fun m p =>
      match parseIntLeading p.1 with
      | some n => if n > m then n else m
      | none => m) 0)
    hnames
    (forall₂_map_self d.tags _ (fun p _ => ⟨rfl, Or.inl rfl⟩))
    (by rw [List.append_nil]; exact hkeys)
    (by intro p hp; exact hne p (by simpa using hp))
    (by intro p hp; exact hopts p (by simpa using hp))
    (by intro p hp n hn
        exact maxTagId_fold_bound d.tags 0 p (by simpa using hp) n hn)
    (by intro p hp; exact absurd hp (List.not_mem_nil p))
    (by simp [hm0])
    (by intro b hb; exact absurd hb (List.not_mem_nil b))
    (by rw [hm0]; intro n hn; exact absurd hn (List.not_mem_nil n))
    (by intro n hn; simp at hn)
  rw [List.append_nil] at hspec
  obtain ⟨o2, c2, t2, m2, hst, hrel2, hnd2, hne2, hv2, hmk2, hcomp2⟩ := hspec
  have hneo2 : ∀ q ∈ o2, q.1 ≠ "" := fun q hq => hne2 q (List.mem_append_left _ hq)
  have hsubl : (keepMarked t2 o2 ++ c2).Sublist (o2 ++ c2) :=
    (keepMarked_sublist t2 o2).append (List.Sublist.refl c2)
  have hknames := keepMarked_names t2 o2
    (List.Forall₂.imp (fun m p hr => hr.1) hrel2)
  refine ⟨{ d with tags := keepMarked t2 o2 ++ c2, browseTrigger := "Stop" },
    ?_, ?_⟩
  · simp only [populateDevice]
    rw [hst]
    dsimp only
    rw [delfold_spec t2 o2 c2
      (List.Forall₂.imp (fun m p hr => hr.2.imp id (fun hh => hh.1)) hrel2) hnd2]
  · simp only [browsePopulated]
    refine ⟨?_, ?_, ?_, ?_, ?_⟩
    · exact hnd2.sublist (hsubl.map Prod.fst)
    · exact fun q hq => hne2 q (hsubl.subset hq)
    · intro q hq
      rcases List.mem_append.1 hq with h1 | h2
      · exact keepMarked_values bts t2 o2 hrel2 hneo2 q h1
      · exact hv2 q h2
    · rw [List.map_append, hknames]
      exact hmk2
    · intro bt hbt
      rcases hcomp2 bt hbt with hL | hR
      · have hmem : bt.name ∈ (keepMarked t2 o2).map (fun p => p.2.name) := by
          rw [hknames]; exact hL
        obtain ⟨q, hq, hqe⟩ := List.mem_map.1 hmem
        exact ⟨q, List.mem_append_left _ hq, hqe⟩
      · obtain ⟨q, hq, hqe⟩ := List.mem_map.1 hR
        exact ⟨q, List.mem_append_right _ hq, hqe⟩

/-- Re-merging a distinct-name browse list over populated tags walks each
browse tag to its unique intact tagmap entry, rewrites the identical values
in place and consumes every tagmap entry, changing nothing. -/
theorem populate_fold_fix (bts : List BrowseTag) :
    ∀ (rem : List BrowseTag) (tags : List (String × TagCfg)) (m : Nat),
      (∀ b ∈ rem, b ∈ bts) →
      ((rem.map BrowseTag.name).Nodup) →
      ((bts.map BrowseTag.name).Nodup) →
      ((tags.map Prod.fst).Nodup) →
      (∀ p ∈ tags, p.1 ≠ "") →
      (∀ p ∈ tags, ∃ bt ∈ bts, btValues bt p.2) →
      ((tags.map (fun p => p.2.name)).Nodup) →
      (∀ bt ∈ bts, ∃ p ∈ tags, p.2.name = bt.name) →
      rem.foldl (fun acc bt => acc.bind (fun st => populateStep st bt))
        (some ⟨tags, tags.map (fun p =>
          (if p.2.name ∈ rem.map BrowseTag.name then p.1 else "", p.2.name)), m⟩)
        = some ⟨tags, tags.map (fun p => (("" : String), p.2.name)), m⟩ := by
  intro rem
  induction rem with
  | nil =>
    intro tags m _ _ _ _ _ _ _ _
    simp
  | cons bt rem' ih =>
    intro tags m hsub hrn hnames hknd hkne hval hnnd hcomp
    have hbtbts : bt ∈ bts := hsub bt (List.mem_cons_self _ _)
    obtain ⟨p, hp, hpname⟩ := hcomp bt hbtbts
    obtain ⟨L1, L2, hsplit⟩ := List.append_of_mem hp
    subst hsplit
    have hrn2 := List.nodup_cons.1
      (show (bt.name :: rem'.map BrowseTag.name).Nodup by simpa using hrn)
    have hnamesflat : (L1.map (fun q => q.2.name)
        ++ p.2.name :: L2.map (fun q => q.2.name)).Nodup := by simpa using hnnd
    have hmidn := List.nodup_cons.1 (List.nodup_middle.1 hnamesflat)
    have hL1n : ∀ q ∈ L1, q.2.name ≠ bt.name := by
      intro q hq he
      apply hmidn.1
      have hpq : p.2.name = q.2.name := by rw [hpname, ← he]
      rw [hpq]
      exact List.mem_append_left _ (List.mem_map_of_mem _ hq)
    have hL2n : ∀ q ∈ L2, q.2.name ≠ bt.name := by
      intro q hq he
      apply hmidn.1
      have hpq : p.2.name = q.2.name := by rw [hpname, ← he]
      rw [hpq]
      exact List.mem_append_right _ (List.mem_map_of_mem _ hq)
    have hkflat : (L1.map Prod.fst ++ p.1 :: L2.map Prod.fst).Nodup := by
      simpa using hknd
    have hmidk := List.nodup_cons.1 (List.nodup_middle.1 hkflat)
    have hpo1 : p.1 ∉ L1.map Prod.fst := fun hx => hmidk.1 (List.mem_append_left _ hx)
    have hpne : p.1 ≠ "" := hkne p hp
    have hcond : p.2.name ∈ bt.name :: rem'.map BrowseTag.name := by
      rw [hpname]
      exact List.mem_cons_self _ _
    have htm : (L1 ++ p :: L2).map (fun q =>
        (if q.2.name ∈ bt.name :: rem'.map BrowseTag.name then q.1 else "", q.2.name))
        = L1.map (fun q =>
            (if q.2.name ∈ bt.name :: rem'.map BrowseTag.name then q.1 else "", q.2.name))
          ++ (p.1, bt.name)
          :: L2.map (fun q =>
            (if q.2.name ∈ bt.name :: rem'.map BrowseTag.name then q.1 else "", q.2.name)) := by
      simp only [List.map_append, List.map_cons]
      rw [if_pos hcond, hpname]
    have hm1f : ∀ q ∈ L1.map (fun q =>
        (if q.2.name ∈ bt.name :: rem'.map BrowseTag.name then q.1 else "", q.2.name)),
        q.2 ≠ bt.name := by
      intro q hq
      obtain ⟨q', hq', rfl⟩ := List.mem_map.1 hq
      exact hL1n q' hq'
    have hcf := consumeFirst_found
      (L1.map (fun q =>
        (if q.2.name ∈ bt.name :: rem'.map BrowseTag.name then q.1 else "", q.2.name)))
      p.1 bt.name
      (L2.map (fun q =>
        (if q.2.name ∈ bt.name :: rem'.map BrowseTag.name then q.1 else "", q.2.name)))
      hm1f
    have hbv : btValues bt p.2 := by
      obtain ⟨bt', hbt', hv'⟩ := hval p hp
      have heq : bt' = bt := List.inj_on_of_nodup_map hnames hbt' hbtbts
        (by rw [← hv'.1]; exact hpname)
      exact heq ▸ hv'
    have hamod : amod (L1 ++ p :: L2) p.1 (browseCfgUpdate bt) = L1 ++ p :: L2 := by
      rw [show (L1 ++ p :: L2) = L1 ++ (p.1, p.2) :: L2 from by simp,
        amod_split L1 L2 p.1 p.2 _ hpo1, browseCfgUpdate_id bt p.2 hbv]
    have hlk : alookup (L1 ++ p :: L2) p.1 = some p.2 := by
      rw [show (L1 ++ p :: L2) = L1 ++ (p.1, p.2) :: L2 from by simp]
      exact alookup_split L1 L2 p.1 p.2 hpo1
    have hos : p.2.options.isSome = true := by
      rw [hbv.2.1]
      rfl
    have hfcong : ∀ (q : String × TagCfg), q.2.name ≠ bt.name →
        (if q.2.name ∈ rem'.map BrowseTag.name then q.1 else ("" : String), q.2.name)
          = (if q.2.name ∈ bt.name :: rem'.map BrowseTag.name then q.1 else "",
             q.2.name) := by
      intro q hqne
      by_cases hqm : q.2.name ∈ rem'.map BrowseTag.name
      · rw [if_pos hqm, if_pos (List.mem_cons_of_mem _ hqm)]
      · rw [if_neg hqm, if_neg (by
          intro hcmem
          rcases List.mem_cons.1 hcmem with he | hm2
          · exact hqne he
          · exact hqm hm2)]
    have htm2 : (L1 ++ p :: L2).map (fun q =>
        (if q.2.name ∈ rem'.map BrowseTag.name then q.1 else "", q.2.name))
        = L1.map (fun q =>
            (if q.2.name ∈ bt.name :: rem'.map BrowseTag.name then q.1 else "", q.2.name))
          ++ ("", bt.name)
          :: L2.map (fun q =>
            (if q.2.name ∈ bt.name :: rem'.map BrowseTag.name then q.1 else "", q.2.name)) := by
      simp only [List.map_append, List.map_cons]
      rw [if_neg (by rw [hpname]; exact hrn2.1), hpname,
        List.map_congr_left (fun q hq => hfcong q (hL1n q hq)),
        List.map_congr_left (fun q hq => hfcong q (hL2n q hq))]
    have hstate : populateStep ⟨L1 ++ p :: L2,
        L1.map (fun q =>
          (if q.2.name ∈ bt.name :: rem'.map BrowseTag.name then q.1 else "", q.2.name))
        ++ (p.1, bt.name)
        :: L2.map (fun q =>
          (if q.2.name ∈ bt.name :: rem'.map BrowseTag.name then q.1 else "", q.2.name)),
        m⟩ bt
        = some ⟨L1 ++ p :: L2, (L1 ++ p :: L2).map (fun q =>
            (if q.2.name ∈ rem'.map BrowseTag.name then q.1 else "", q.2.name)), m⟩ := by
      rw [populateStep_update _ bt p.1 p.2 (congrArg Prod.fst hcf) hpne hlk hos]
      rw [hcf, hamod, htm2]
    rw [List.foldl_cons]
    simp only [Option.some_bind, List.map_cons]
    rw [htm, hstate]
    exact ih (L1 ++ p :: L2) m (fun b hb => hsub b (List.mem_cons_of_mem _ hb))
      hrn2.2 hnames hknd hkne hval hnnd hcomp

/-- A second merge of the same distinct-name browse list over a device in the
populated shape (with the trigger already reset) completes and is the
identity. -/
theorem populateDevice_fixpoint (s : DeviceCfg) (bts : List BrowseTag)
    (hnames : (bts.map BrowseTag.name).Nodup)
    (hQ : browsePopulated bts s)
    (htr : s.browseTrigger = "Stop") :
    populateDevice s (some bts) = some s := by
  obtain ⟨hknd, hkne, hval, hnnd, hcomp⟩ := hQ
  have htm0 : s.tags.map (fun p => (p.1, p.2.name))
      = s.tags.map (fun p =>
          (if p.2.name ∈ bts.map BrowseTag.name then p.1 else "", p.2.name)) := by
    refine List.map_congr_left ?_
    intro p hp
    obtain ⟨bt, hbt, hv⟩ := hval p hp
    have hc : p.2.name ∈ bts.map BrowseTag.name := by
      rw [hv.1]
      exact List.mem_map_of_mem _ hbt
    rw [if_pos hc]
  simp only [populateDevice]
  rw [htm0, populate_fold_fix bts bts s.tags _ (fun b hb => hb) hnames hnames
    hknd hkne hval hnnd hcomp]
  dsimp only
  rw [delfold_all_marked _ _ (by
    intro q hq
    obtain ⟨p, hp, rfl⟩ := List.mem_map.1 hq
    rfl)]
  rw [← htr]

/-- C8 counterexample data: two discovered tags sharing the name `A`. -/
def c8Bts : List BrowseTag :=
  [{ name := "A", nodeId := "n1", type := 6, arrayIndex := -1 },
   { name := "A", nodeId := "n2", type := 6, arrayIndex := -1 }]

/-- C8 counterexample device: no tags yet, browse just triggered. -/
def c8Dev : DeviceCfg := { tags := [], endpointUrl := "e", browseTrigger := "Start" }

/-- C8 counterexample: merging the same browse result twice is not idempotent
when two discovered tags share a name.  Both runs complete (the first run
creates every tag with an options object, so nothing throws), but the first
tag of the pair consumes the single tagmap entry of that name, so on the
second run the second tag finds only a consumed entry, allocates a fresh uid
and the old one is deleted: the first run yields uids 1 and 2, the second run
yields 1 and 3. -/
theorem populate_twice_duplicate_names_differs :
    ((populateDevice c8Dev (some c8Bts)).map (fun s => s.tags.map Prod.fst)
        = some [("1"), ("2")]
      ∧ ((populateDevice c8Dev (some c8Bts)).bind
            (fun s => populateDevice s (some c8Bts))).map
          (fun s => s.tags.map Prod.fst) = some [("1"), ("3")])
    ∧ (populateDevice c8Dev (some c8Bts)).bind
          (fun s => populateDevice s (some c8Bts))
        ≠ populateDevice c8Dev (some c8Bts) :=
  ⟨⟨rfl, rfl⟩, by decide⟩

/-- A device whose existing tag named `A` has no options object: the merge of
a discovered tag named `A` matches it and throws the TypeError of
src/OpcUADriver.js 277 (writing `options.nodeId.currentValue` of an absent
options object), so the run aborts with no completed result. -/
def c8ThrowDev : DeviceCfg :=
  { tags := [("1", { name := "A" })], endpointUrl := "e", browseTrigger := "Start" }

theorem populate_throws_on_optionless_match :
    populateDevice c8ThrowDev
      (some [{ name := "A", nodeId := "n1", type := 6, arrayIndex := -1 }])
      = none := rfl

/-- C8 (amended): merging a browse result whose discovered names are pairwise
distinct into a device whose existing tag uids are pairwise distinct and
nonempty and whose existing tags all carry an options object (otherwise the
merge throws mid-run) completes and is idempotent - a second identical run
completes and leaves `device.tags` exactly as the first run left it - and
every completed run resets the browse trigger to `"Stop"`. -/
theorem populateDevice_idempotent (d : DeviceCfg) (bts : List BrowseTag)
    (hnames : (bts.map BrowseTag.name).Nodup)
    (hkeys : (d.tags.map Prod.fst).Nodup)
    (hne : ∀ p ∈ d.tags, p.1 ≠ "")
    (hopts : ∀ p ∈ d.tags, p.2.options.isSome = true) :
    ∃ s, populateDevice d (some bts) = some s
      ∧ populateDevice s (some bts) = some s
      ∧ (∀ (d' s' : DeviceCfg) (b : Option (List BrowseTag)),
          populateDevice d' b = some s' → s'.browseTrigger = "Stop") := by
  obtain ⟨s, hs, hQ⟩ := populateDevice_establishes d bts hnames hkeys hne hopts
  exact ⟨s, hs,
    populateDevice_fixpoint s bts hnames hQ
      (populateDevice_trigger d (some bts) s hs),
    fun d' s' b h => populateDevice_trigger d' b s' h⟩

/-- C8 witness device: one existing tag keyed `7` named `A` with its options
object present, so the merge exercises both the reuse path (browse tag `A`)
and the creation path (browse tag `B`). -/
def c8wDev : DeviceCfg :=
  { tags := [("7",
      { name := "A",
        options := some { nodeId := "n0", nodeType := 6, arrayIndex := -1 } })],
    endpointUrl := "e", browseTrigger := "Start" }

def c8wBts : List BrowseTag :=
  [{ name := "A", nodeId := "n1", type := 6, arrayIndex := -1 },
   { name := "B", nodeId := "n2", type := 1, arrayIndex := 0 }]

theorem populateDevice_idempotent_witness :
    ∃ s, populateDevice c8wDev (some c8wBts) = some s
      ∧ populateDevice s (some c8wBts) = some s
      ∧ (∀ (d' s' : DeviceCfg) (b : Option (List BrowseTag)),
          populateDevice d' b = some s' → s'.browseTrigger = "Stop") :=
  populateDevice_idempotent c8wDev c8wBts (by decide) (by decide) (by decide)
    (by decide)
